import Mathlib

/-!
Verification of the boostburn incremental ingestion and accounting engine.

Strings are modelled as lists of characters (`Str`); Python `int` as `Int`;
Python `float` as `ℚ` (exact rational arithmetic); Python `dict` as an
association list in insertion order (first-match lookup, append on new key);
Python `set` as `Finset`; `datetime` values as seconds since the Unix epoch
(`Int`), all in UTC.
-/

abbrev Str := List Char

def str (s : String) : Str := s.toList

namespace Assoc

variable {κ V : Type} [DecidableEq κ]

/-- Dictionary lookup: value at the first matching key. -/
def alookup (k : κ) : List (κ × V) → Option V
  | [] => none
  | (k', v) :: rest => if k' = k then some v else alookup k rest

/-- `d.setdefault(k, dflt)` followed by an in-place update `f` of the entry:
if `k` is present, apply `f` to its value; otherwise append `(k, f dflt)`. -/
def upsert (k : κ) (f : V → V) (dflt : V) : List (κ × V) → List (κ × V)
  | [] => [(k, f dflt)]
  | (k', v) :: rest =>
      if k' = k then (k', f v) :: rest else (k', v) :: upsert k f dflt rest

/-- In-place update of an existing entry (`d[k].field = ...`): apply `f` to the
value at the first matching key, leave the list unchanged if `k` is absent. -/
def adjust (k : κ) (f : V → V) : List (κ × V) → List (κ × V)
  | [] => []
  | (k', v) :: rest =>
      if k' = k then (k', f v) :: rest else (k', v) :: adjust k f rest

/-- Dictionary assignment `d[k] = v`: replace the first matching entry,
append if absent. -/
def aset (k : κ) (v : V) : List (κ × V) → List (κ × V)
  | [] => [(k, v)]
  | (k', v') :: rest =>
      if k' = k then (k', v) :: rest else (k', v') :: aset k v rest

end Assoc

namespace StrOps

/-- Split at the first occurrence of character `c`: `some (before, after)`,
`none` if `c` does not occur. Mirrors scanning for a delimiter. -/
def breakOn (c : Char) : Str → Option (Str × Str)
  | [] => none
  | x :: xs =>
      if x = c then some ([], xs)
      else
        match breakOn c xs with
        | some (a, b) => some (x :: a, b)
        | none => none

/-- Python `s.startswith(p)` / the act of consuming a literal in a regex:
returns the remainder after the literal when it is present. -/
def dropLit (p s : Str) : Option Str :=
  if p.isPrefixOf s then some (s.drop p.length) else none

/-- Python `s.rsplit(c, 1)[0]`: everything before the LAST occurrence of `c`
(the whole string if `c` is absent). -/
def beforeLast (c : Char) (s : Str) : Str :=
  match breakOn c s.reverse with
  | some (_, restRev) => restRev.reverse
  | none => s

/-- Python `s.split(c)[-1]`: everything after the last occurrence of `c`. -/
def afterLast (c : Char) (s : Str) : Str :=
  match breakOn c s.reverse with
  | some (sufRev, _) => sufRev.reverse
  | none => s

/-- Python `s.split(c, n)[-1]`: drop up to `n` leading `c`-delimited
segments; once fewer than `n` occurrences remain, the remainder is the
last element of the split. -/
def afterSplits (c : Char) : Nat → Str → Str
  | 0, s => s
  | n + 1, s =>
      match breakOn c s with
      | some (_, rest) => afterSplits c n rest
      | none => s

/-- Python `pat in s` together with `s.split(pat, 1)`: locate the first
occurrence of substring `pat`, returning the parts before and after it. -/
def splitOnSub (pat : Str) : Str → Option (Str × Str)
  | [] => if pat = [] then some ([], []) else none
  | x :: xs =>
      if pat.isPrefixOf (x :: xs) then some ([], (x :: xs).drop pat.length)
      else
        match splitOnSub pat xs with
        | some (a, b) => some (x :: a, b)
        | none => none

/-- Python truthiness of an optional string: present and non-empty. -/
def truthy : Option Str → Bool
  | some s => s ≠ []
  | none => false

end StrOps

namespace Calendar

/-- Leap-year rule of the proleptic Gregorian calendar (as used by
`datetime.date`). -/
def isLeap (y : Int) : Bool := (y % 4 = 0 && y % 100 ≠ 0) || y % 400 = 0

/-- Number of days in month `m` of year `y` (as validated by the
`datetime` constructor behind `strptime`). -/
def daysInMonth (y m : Int) : Int :=
  if m = 2 then (if isLeap y then 29 else 28)
  else if m = 4 || m = 6 || m = 9 || m = 11 then 30
  else 31

/-- Days from 1970-01-01 to the civil date y-m-d (standard civil-from-days
algorithm, as computed by `datetime` timestamps in UTC). -/
def toEpochDays (y m d : Int) : Int :=
  let y' := if m ≤ 2 then y - 1 else y
  let era := Int.fdiv y' 400
  let yoe := y' - era * 400
  let mp := if m > 2 then m - 3 else m + 9
  let doy := Int.fdiv (153 * mp + 2) 5 + d - 1
  let doe := yoe * 365 + Int.fdiv yoe 4 - Int.fdiv yoe 100 + doy
  era * 146097 + doe - 719468

/-- Inverse of `toEpochDays`: the civil date (y, m, d) of an epoch day. -/
def fromEpochDays (z0 : Int) : Int × Int × Int :=
  let z := z0 + 719468
  let era := Int.fdiv z 146097
  let doe := z - era * 146097
  let yoe := Int.fdiv (doe - Int.fdiv doe 1460 + Int.fdiv doe 36524 - Int.fdiv doe 146096) 365
  let y := yoe + era * 400
  let doy := doe - (365 * yoe + Int.fdiv yoe 4 - Int.fdiv yoe 100)
  let mp := Int.fdiv (5 * doy + 2) 153
  let d := doy - Int.fdiv (153 * mp + 2) 5 + 1
  let m := if mp < 10 then mp + 3 else mp - 9
  (if m ≤ 2 then y + 1 else y, m, d)

end Calendar

namespace Datehour

open StrOps Calendar

def digitVal (c : Char) : Option Nat :=
  if '0' ≤ c ∧ c ≤ '9' then some (c.toNat - '0'.toNat) else none

/-- Exactly `n` leading digits, returning their value and the remainder. -/
def digitsExact : Nat → Str → Option (Nat × Str)
  | 0, rest => some (0, rest)
  | _ + 1, [] => none
  | n + 1, c :: rest =>
      match digitVal c, digitsExact n rest with
      | some v, some (acc, rem) => some (v * 10 ^ n + acc, rem)
      | _, _ => none

/-- A run of 1..`maxLen` digits followed by the literal character `lit`,
longest run first. CPython's `_strptime` compiles `%m` to the
alternation `1[0-2]|0[1-9]|[1-9]`, `%d` (numeric forms) to
`3[01]|[12]\d|0[1-9]|[1-9]` and `%H` to `2[0-3]|[0-1]\d|\d`, each
followed by the next literal of the format. Over a field followed by a
fixed literal this greedy two-then-one-digit run accepts exactly the
same strings once the numeric range check (collected at the end of
`parseDatehour`) is applied: whenever two digits are consumed, the
character after them is a digit, so the one-digit alternative could not
match the literal either, and every alternation branch excluded only by
its value bound is excluded here by the range check. -/
def parseField (maxLen : Nat) (lit : Char) (s : Str) : Option (Nat × Str) :=
  go maxLen s
where
  go : Nat → Str → Option (Nat × Str)
    | 0, _ => none
    | n + 1, s =>
        match digitsExact (n + 1) s with
        | some (v, lc :: rem) => if lc = lit then some (v, rem) else go n s
        | _ => go n s

/-- A trailing run of 1..`maxLen` digits consuming the whole remainder
(the final directive of the format; `strptime` rejects unconverted
trailing data). -/
def parseFinal (maxLen : Nat) (s : Str) : Option Nat :=
  match parseField maxLen '!' (s ++ ['!']) with
  | some (v, []) => some v
  | _ => none

/-- The `%d` directive followed by the format's literal `T`: one or two
digits, or `strptime`'s space-padded form ` [1-9]`; `_strptime` matches
the compiled pattern with `IGNORECASE`, so a lowercase `t` is accepted
for the literal. The space form and the numeric forms are disjoint on
their first character, so trying them in either order matches the regex
alternation; two digits followed by `t` are reached only after the
two-then-one run before `T` fails, which preserves the regex's result
because a one-digit match before `T` and a two-digit match before `t`
would need the second character to be both `T` and a digit. -/
def parseDay (s : Str) : Option (Nat × Str) :=
  match s with
  | ' ' :: c :: l :: rem =>
      match digitVal c with
      | some d => if 1 ≤ d ∧ (l = 'T' ∨ l = 't') then some (d, rem) else none
      | none => none
  | _ =>
      match parseField 2 'T' s with
      | some r => some r
      | none => parseField 2 't' s

/-- `workflow._parse_datehour`: `datetime.strptime(value, "%Y-%m-%dT%H")`
with UTC attached, as seconds since the epoch; `none` when parsing fails
or a field is rejected by the `datetime` constructor. `strptime`
compiles `%Y` to exactly four digits (`\d\d\d\d`), anchors the match at
the start and rejects unconverted trailing data; the constructor
rejects year 0 (`MINYEAR` is 1), a month outside 1..12 and a day
outside the month's length. -/
def parseDatehour (s : Str) : Option Int :=
  match digitsExact 4 s with
  | some (y, '-' :: s1) =>
    match parseField 2 '-' s1 with
    | none => none
    | some (m, s2) =>
      match parseDay s2 with
      | none => none
      | some (d, s3) =>
        match parseFinal 2 s3 with
        | none => none
        | some h =>
          if 1 ≤ y ∧ 1 ≤ m ∧ m ≤ 12 ∧ 1 ≤ d ∧ (d : Int) ≤ daysInMonth y m ∧ h ≤ 23
          then some (toEpochDays y m d * 86400 + (h : Int) * 3600)
          else none
  | _ => none

def pad (w n : Nat) : Str :=
  let ds := Nat.toDigits 10 n
  List.replicate (w - ds.length) '0' ++ ds

/-- `strftime("%Y-%m-%dT%H")` on an hour-aligned UTC timestamp (seconds
since the epoch). `datetime.strftime` delegates to the platform
`strftime`; glibc zero-pads `%m`, `%d` and `%H` to two digits but
writes `%Y` as the plain decimal number, unpadded for years below
1000. -/
def formatDatehour (t : Int) : Str :=
  let days := Int.fdiv t 86400
  let secs := t - days * 86400
  let hour := Int.fdiv secs 3600
  let (y, m, d) := fromEpochDays days
  Nat.toDigits 10 y.toNat ++ '-' :: pad 2 m.toNat ++ '-' :: pad 2 d.toNat ++ 'T' :: pad 2 hour.toNat

end Datehour

namespace BedrockParser

open StrOps

/-- The four scope markers admitted by `_INFERENCE_PROFILE_PATTERN`'s
alternation `(us|eu|global|apac)`. No marker is a prefix of another, so
matching the alternation in order is deterministic. -/
def scopeMarkers : List Str := [str "us", str "eu", str "global", str "apac"]

/-- Match of `_INFERENCE_PROFILE_PATTERN`
`^arn:aws:bedrock:[^:]+:[^:]+:inference-profile/((us|eu|global|apac)\..+)$`
against `model_id`, returning capture group 1. The two `[^:]+` fields are
delimited by literal colons, so the match is deterministic; `.` does not
match a newline, hence the newline check on the captured tail. -/
def matchInferenceProfile (model_id : Str) : Option Str :=
  match dropLit (str "arn:aws:bedrock:") model_id with
  | none => none
  | some s1 =>
    match breakOn ':' s1 with
    | none => none
    | some (seg1, s2) =>
      if seg1 = [] then none else
      match breakOn ':' s2 with
      | none => none
      | some (seg2, s3) =>
        if seg2 = [] then none else
        match dropLit (str "inference-profile/") s3 with
        | none => none
        | some g0 =>
          -- `$` also matches just before a trailing newline, which is then
          -- outside the capture group.
          let g := if g0.getLast? = some '\n' then g0.dropLast else g0
          if scopeMarkers.any
               (fun sc => (sc ++ ['.']).isPrefixOf g &&
                 decide (g.length > sc.length + 1)) ∧ '\n' ∉ g
          then some g else none

/-- Python `":" in result` / `result.rsplit(":", 1)[0]`: strip a trailing
`:X` version suffix, cutting at the last colon when one exists. -/
def stripVersionSuffix (s : Str) : Str :=
  if ':' ∈ s then beforeLast ':' s else s

/-- `bedrock_parser.normalize_model_id`: canonical model key for
aggregation — extract the inference-profile name (scope marker included)
from profile ARNs, then strip the trailing `:X` version suffix. -/
def normalize_model_id (model_id : Str) : Str :=
  let result :=
    match matchInferenceProfile model_id with
    | some g => g
    | none => model_id
  stripVersionSuffix result

/-- One `usage` sub-object of a response body. Numeric JSON values are
modelled as already converted to `Int` (`_safe_int` composed with the
field read); `none` is an absent field. `otherKeys` records whether the
dict carries any further keys, which only affects its truthiness. -/
structure UsageDict where
  input_tokens : Option Int := none
  inputTokens : Option Int := none
  input_token_count : Option Int := none
  output_tokens : Option Int := none
  outputTokens : Option Int := none
  output_token_count : Option Int := none
  otherKeys : Bool := false
deriving DecidableEq

/-- Python truthiness of the usage dict: non-empty. -/
def UsageDict.truthy (u : UsageDict) : Bool :=
  u.input_tokens.isSome || u.inputTokens.isSome || u.input_token_count.isSome ||
  u.output_tokens.isSome || u.outputTokens.isSome || u.output_token_count.isSome ||
  u.otherKeys

/-- One dict element of a list-shaped `outputBodyJson`.
`messageUsage = some v` means the item has a dict-valued `message` key
that contains a `usage` key whose value is `v` (`v = none` models a
`usage` value that is None / not a dict). `selfUsage = some v` likewise
models a `usage` key directly on the item. -/
structure BodyItem where
  messageUsage : Option (Option UsageDict) := none
  selfUsage : Option (Option UsageDict) := none
deriving DecidableEq

/-- Shape of `record["output"]["outputBodyJson"]`: absent/None, a dict
(whose `usage` value, if any, is a usage dict), a list whose elements
are dicts (`some item`) or non-dict values (`none`, skipped by the
source), or some other JSON value. -/
inductive OutputBody where
  | absent : OutputBody
  | obj (usage : Option UsageDict) : OutputBody
  | arr (items : List (Option BodyItem)) : OutputBody
  | other : OutputBody
deriving DecidableEq

/-- `_extract_usage`: a dict body yields its `usage` value; a list body
is scanned for the first dict item whose `message` is a dict carrying a
`usage` key (returning that value) or which itself carries a `usage`
key; anything else yields None. -/
def extractUsage : OutputBody → Option UsageDict
  | .absent => none
  | .obj usage => usage
  | .other => none
  | .arr items => go items
where
  go : List (Option BodyItem) → Option UsageDict
    | [] => none
    | none :: rest => go rest
    | some item :: rest =>
        match item.messageUsage with
        | some v => v
        | none =>
            match item.selfUsage with
            | some v => v
            | none => go rest

/-- A usage record as far as token extraction is concerned.
`inputTokenCount`/`outputTokenCount` are the primary structured fields
after `_safe_int` (`none` = absent or not an integer). -/
structure TokenRecord where
  inputTokenCount : Option Int := none
  outputTokenCount : Option Int := none
  outputBodyJson : OutputBody := .absent
deriving DecidableEq

/-- Python `a or b` on optional integers: `a` when it is truthy (present
and non-zero), otherwise `b`. -/
def pyOr (a b : Option Int) : Option Int :=
  match a with
  | some v => if v ≠ 0 then some v else b
  | none => b

/-- Python `int(x or 0)` on an optional integer. -/
def orZero : Option Int → Int
  | some v => v
  | none => 0

/-- `bedrock_parser.extract_token_counts`: primary structured fields
first; when either is missing, search the response body for a `usage`
sub-object and read the alternate spellings; missing values default to
0. The third component is `used_fallback`. -/
def extract_token_counts (r : TokenRecord) : Int × Int × Bool :=
  let input0 := r.inputTokenCount
  let output0 := r.outputTokenCount
  let (input1, output1, used_fallback) :=
    if input0.isNone ∨ output0.isNone then
      match extractUsage r.outputBodyJson with
      | some u =>
          if u.truthy then
            (if input0.isNone then
               pyOr u.input_tokens (pyOr u.inputTokens u.input_token_count)
             else input0,
             if output0.isNone then
               pyOr u.output_tokens (pyOr u.outputTokens u.output_token_count)
             else output0,
             true)
          else (input0, output0, false)
      | none => (input0, output0, false)
    else (input0, output0, false)
  (orZero input1, orZero output1, used_fallback)

/-- An inference-profile ARN of the shape both `normalize_model_id` and
`get_pricing_model_key` handle: colon-delimited region and account
fields, the literal `inference-profile/`, then a scope marker, a dot
and the profile tail. -/
def profileArn (scope reg acct rest : Str) : Str :=
  str "arn:aws:bedrock:" ++
    (reg ++ ':' :: (acct ++ ':' ::
      (str "inference-profile/" ++ (scope ++ '.' :: rest))))

/-- Length of the longest slash-free leading run of a string (used to
locate the first occurrence of `inference-profile/`, whose only slash
is its final character). -/
def slashFreeLen : Str → Nat
  | [] => 0
  | c :: s => if c = '/' then 0 else slashFreeLen s + 1

end BedrockParser

namespace Pricing

open StrOps

/-- `adapters.pricing.PriceRate` (floats as exact rationals). -/
structure PriceRate where
  input_per_1k : ℚ
  output_per_1k : ℚ
  currency : Str := str "USD"
  effective_date : Option Str := none
  missing_input : Bool := false
  missing_output : Bool := false
deriving DecidableEq

/-- `adapters.pricing.normalize_model_id`: drop an `arn:`-style head
(`value.split(":", 5)[-1]`), then keep what follows the last `/`. -/
def normalize_model_id (model_id : Str) : Str :=
  let value :=
    if (str "arn:").isPrefixOf model_id then afterSplits ':' 5 model_id
    else model_id
  if '/' ∈ value then afterLast '/' value else value

/-- `adapters.pricing.get_pricing_model_key`: for identifiers containing
`inference-profile/`, everything after its first occurrence; otherwise
the standard normalization; in both cases the trailing `:X` version
suffix is stripped. -/
def get_pricing_model_key (original_model_id : Str) : Str :=
  let result :=
    match splitOnSub (str "inference-profile/") original_model_id with
    | some (_, after) => after
    | none => normalize_model_id original_model_id
  BedrockParser.stripVersionSuffix result

/-- An in-memory price table: `rates[model_key][region] = rate`
(the YAML already loaded, keys already passed through
`get_pricing_model_key` by `_load_pricing_yaml`). -/
abbrev PriceTable := List (Str × List (Str × PriceRate))

/-- `StaticPricingProvider.get_rate`: exact lookup of the pricing key,
then the region, then the `"default"` region; no other fallback. An
empty per-model dict is falsy in Python and is treated like an absent
key. -/
def get_rate (rates : PriceTable) (model_id region : Str) : Option PriceRate :=
  let pricing_key := get_pricing_model_key model_id
  match Assoc.alookup pricing_key rates with
  | none => none
  | some model_rates =>
    if model_rates = [] then none
    else
      match Assoc.alookup region model_rates with
      | some rate => some rate
      | none =>
        match Assoc.alookup (str "default") model_rates with
        | some rate => some rate
        | none => none

/-- `metrics.aggregator.compute_cost`. -/
def compute_cost (rate : Option PriceRate) (input_tokens output_tokens : Int) : ℚ :=
  match rate with
  | none => 0
  | some rate =>
      ((input_tokens : ℚ) / 1000) * rate.input_per_1k +
      ((output_tokens : ℚ) / 1000) * rate.output_per_1k

end Pricing

namespace Models

open Assoc Pricing

/-- `models.TokenStats`. -/
@[ext]
structure TokenStats where
  input_tokens : Int := 0
  output_tokens : Int := 0
  total_tokens : Int := 0
  cost_usd : ℚ := 0
deriving DecidableEq

/-- `TokenStats.add`. -/
def TokenStats.add (s : TokenStats) (input_tokens output_tokens : Int)
    (cost_usd : ℚ) : TokenStats :=
  { input_tokens := s.input_tokens + input_tokens
    output_tokens := s.output_tokens + output_tokens
    total_tokens := s.total_tokens + input_tokens + output_tokens
    cost_usd := s.cost_usd + cost_usd }

/-- The granular usage key `(region, identity, model_id)`. -/
abbrev UsageKey := Str × Str × Str

/-- `models.Metrics`. -/
@[ext]
structure Metrics where
  totals : TokenStats := {}
  by_region : List (Str × TokenStats) := []
  by_identity : List (Str × TokenStats) := []
  by_model : List (Str × TokenStats) := []
  by_usage_key : List (UsageKey × TokenStats) := []
  model_id_map : List (Str × Str) := []
deriving DecidableEq

/-- `models.Warnings`. -/
structure Warnings where
  unpriced_models : Finset Str := ∅
  partial_pricing_models : Finset Str := ∅
  missing_token_counts : Nat := 0
  records_skipped : Nat := 0
  verification_errors : Finset Str := ∅
deriving DecidableEq

/-- `Metrics.add_usage`. -/
def Metrics.add_usage (m : Metrics) (region identity model_id : Str)
    (input_tokens output_tokens : Int) (cost_usd : ℚ)
    (original_model_id : Option Str := none) : Metrics :=
  let key : UsageKey := (region, identity, model_id)
  { totals := m.totals.add input_tokens output_tokens cost_usd
    by_region := upsert region (·.add input_tokens output_tokens cost_usd) {} m.by_region
    by_identity := upsert identity (·.add input_tokens output_tokens cost_usd) {} m.by_identity
    by_model := upsert model_id (·.add input_tokens output_tokens cost_usd) {} m.by_model
    by_usage_key := upsert key (·.add input_tokens output_tokens 0) {} m.by_usage_key
    model_id_map :=
      match original_model_id with
      | some orig =>
          -- `if original_model_id and model_id not in self.model_id_map`
          if orig ≠ [] ∧ alookup model_id m.model_id_map = none
          then m.model_id_map ++ [(model_id, orig)] else m.model_id_map
      | none => m.model_id_map }

/-- The per-map merge loop of `Metrics.merge`: for each entry of `src`,
insert a zero entry into `dst` when the key is absent, then add the
source token counts with cost 0. -/
def mergeStatsMap {κ : Type} [DecidableEq κ] (dst src : List (κ × TokenStats)) :
    List (κ × TokenStats) :=
  src.foldl
    (fun acc (kv : κ × TokenStats) =>
      upsert kv.1 (·.add kv.2.input_tokens kv.2.output_tokens 0) {} acc)
    dst

/-- `Metrics.merge`: add `other` into `m`; every incoming cost is passed
as 0 (costs are recalculated by `apply_pricing`). -/
def Metrics.merge (m other : Metrics) : Metrics :=
  { totals := m.totals.add other.totals.input_tokens other.totals.output_tokens 0
    by_region := mergeStatsMap m.by_region other.by_region
    by_identity := mergeStatsMap m.by_identity other.by_identity
    by_model := mergeStatsMap m.by_model other.by_model
    by_usage_key := mergeStatsMap m.by_usage_key other.by_usage_key
    model_id_map :=
      other.model_id_map.foldl
        (fun acc kv =>
          if alookup kv.1 acc = none then acc ++ [kv] else acc)
        m.model_id_map }

/-- One iteration of the `apply_pricing` loop body for the usage-key
entry `(key, stats)`: warning bookkeeping, cost computation, and the
four roll-ups, where a missing dimensional entry raises `KeyError`. -/
def applyPricingStep (get_rate : Str → Str → Option PriceRate)
    (e : UsageKey × TokenStats) (mw : Metrics × Warnings) :
    Except Str (Metrics × Warnings) :=
  let m := mw.1
  let w := mw.2
  let region := e.1.1
  let identity := e.1.2.1
  let model_id := e.1.2.2
  let stats := e.2
  let original_model_id := (alookup model_id m.model_id_map).getD model_id
  let rate := get_rate original_model_id region
  let w' :=
    match rate with
    | none => { w with unpriced_models := insert model_id w.unpriced_models }
    | some r =>
        if r.missing_input || r.missing_output
        then { w with partial_pricing_models := insert model_id w.partial_pricing_models }
        else w
  let cost := compute_cost rate stats.input_tokens stats.output_tokens
  let m1 := { m with
    by_usage_key := adjust e.1 (fun s => { s with cost_usd := cost }) m.by_usage_key
    totals := { m.totals with cost_usd := m.totals.cost_usd + cost } }
  match alookup region m1.by_region with
  | none => .error (str "KeyError")
  | some ts_r =>
    let m2 := { m1 with
      by_region := aset region { ts_r with cost_usd := ts_r.cost_usd + cost } m1.by_region }
    match alookup identity m2.by_identity with
    | none => .error (str "KeyError")
    | some ts_i =>
      let m3 := { m2 with
        by_identity := aset identity { ts_i with cost_usd := ts_i.cost_usd + cost } m2.by_identity }
      match alookup model_id m3.by_model with
      | none => .error (str "KeyError")
      | some ts_m =>
        .ok ({ m3 with
          by_model := aset model_id { ts_m with cost_usd := ts_m.cost_usd + cost } m3.by_model }, w')

/-- The `apply_pricing` loop over the (fixed) list of usage-key entries.
A raised `KeyError` propagates, abandoning the rest of the loop. -/
def applyPricingLoop (get_rate : Str → Str → Option PriceRate) :
    List (UsageKey × TokenStats) → Metrics × Warnings →
    Except Str (Metrics × Warnings)
  | [], mw => .ok mw
  | e :: rest, mw =>
      match applyPricingStep get_rate e mw with
      | .error s => .error s
      | .ok mw' => applyPricingLoop get_rate rest mw'

/-- Zero the `cost_usd` of every entry of a dimensional map. -/
def zeroCosts {κ : Type} (l : List (κ × TokenStats)) : List (κ × TokenStats) :=
  l.map (fun kv => (kv.1, { kv.2 with cost_usd := 0 }))

/-- The zeroing pass at the top of `apply_pricing`: reset the cost of
`totals` and of every dimensional entry to 0 (the granular map is not
reset — its costs are overwritten inside the loop). -/
def zeroedCosts (m : Metrics) : Metrics :=
  { m with
    totals := { m.totals with cost_usd := 0 }
    by_region := zeroCosts m.by_region
    by_identity := zeroCosts m.by_identity
    by_model := zeroCosts m.by_model }

/-- `Metrics.apply_pricing`: reset every cost to 0, then walk the
granular map computing and rolling up per-triple costs; the result is
`error` when a dimensional lookup raises `KeyError`. -/
def Metrics.apply_pricing (m : Metrics)
    (get_rate : Str → Str → Option PriceRate) (w : Warnings) :
    Except Str (Metrics × Warnings) :=
  applyPricingLoop get_rate (zeroedCosts m).by_usage_key (zeroedCosts m, w)

/-- The arguments of one `add_usage` call. -/
structure UsageCall where
  region : Str
  identity : Str
  model_id : Str
  input_tokens : Int
  output_tokens : Int
  cost_usd : ℚ
  original_model_id : Option Str := none
deriving DecidableEq

def Metrics.add_usage_call (m : Metrics) (c : UsageCall) : Metrics :=
  m.add_usage c.region c.identity c.model_id c.input_tokens c.output_tokens
    c.cost_usd c.original_model_id

/-- A sequence of `add_usage` calls, in order. -/
def applyUsageCalls (calls : List UsageCall) (m : Metrics) : Metrics :=
  calls.foldl Metrics.add_usage_call m

/-- Sum of the `input_tokens` of all values of a map. -/
def sumInput {κ : Type} (l : List (κ × TokenStats)) : Int :=
  (l.map fun kv => kv.2.input_tokens).sum

/-- Sum of the `output_tokens` of all values of a map. -/
def sumOutput {κ : Type} (l : List (κ × TokenStats)) : Int :=
  (l.map fun kv => kv.2.output_tokens).sum

/-- Sum of the `cost_usd` of all values of a map. -/
def sumCost {κ : Type} (l : List (κ × TokenStats)) : ℚ :=
  (l.map fun kv => kv.2.cost_usd).sum

/-- The cost `apply_pricing` computes for one granular entry: rate looked
up under the original model id (via the normalized→original map) and the
entry's region, applied to the entry's token counts. -/
def costOfEntry (get_rate : Str → Str → Option PriceRate)
    (model_id_map : List (Str × Str)) (e : UsageKey × TokenStats) : ℚ :=
  compute_cost
    (get_rate ((alookup e.1.2.2 model_id_map).getD e.1.2.2) e.1.1)
    e.2.input_tokens e.2.output_tokens

/-- Total of the per-entry costs over a granular map. -/
def totalCost (get_rate : Str → Str → Option PriceRate)
    (model_id_map : List (Str × Str)) (entries : List (UsageKey × TokenStats)) : ℚ :=
  (entries.map (costOfEntry get_rate model_id_map)).sum

/-- Total of the per-entry costs over the entries selected by `p`. -/
def totalCostWhere (get_rate : Str → Str → Option PriceRate)
    (model_id_map : List (Str × Str)) (p : UsageKey → Bool)
    (entries : List (UsageKey × TokenStats)) : ℚ :=
  (entries.filter (fun e => p e.1) |>.map (costOfEntry get_rate model_id_map)).sum

/-- The warning effect of one `apply_pricing` iteration: an unresolved
rate adds the normalized model to the unpriced set; a partially known
rate adds it to the partial-pricing set. -/
def stepWarnings (get_rate : Str → Str → Option PriceRate)
    (model_id_map : List (Str × Str)) (e : UsageKey × TokenStats)
    (w : Warnings) : Warnings :=
  match get_rate ((alookup e.1.2.2 model_id_map).getD e.1.2.2) e.1.1 with
  | none => { w with unpriced_models := insert e.1.2.2 w.unpriced_models }
  | some r =>
      if r.missing_input || r.missing_output
      then { w with partial_pricing_models :=
              insert e.1.2.2 w.partial_pricing_models }
      else w

/-- The dimensional-map invariant `apply_pricing` relies on: every
granular key's region, identity and model are present in the
corresponding dimensional map. -/
def dimsComplete (m : Metrics) : Prop :=
  ∀ e ∈ m.by_usage_key,
    (alookup e.1.1 m.by_region).isSome ∧
    (alookup e.1.2.1 m.by_identity).isSome ∧
    (alookup e.1.2.2 m.by_model).isSome

instance (m : Metrics) : Decidable (dimsComplete m) := by
  unfold dimsComplete
  infer_instance

end Models

namespace Manifest

open Assoc

/-- `state.manifest.ManifestState`. Each `processed` value is itself a
small string dict (`{"etag": ..., "seen_at": ...}`). -/
structure ManifestState where
  version : Int := 1
  last_datehour : Option Str := none
  processed : List (Str × List (Str × Str)) := []
  updated_at : Option Str := none
  lookback_hours : Int := 6
deriving DecidableEq

/-- `state.manifest.update_last_datehour`: only a truthy (non-None,
non-empty) datehour replaces the checkpoint. -/
def update_last_datehour (m : ManifestState) (datehour : Option Str) :
    ManifestState :=
  match datehour with
  | some s => if s ≠ [] then { m with last_datehour := some s } else m
  | none => m

end Manifest

namespace Workflow

open Assoc Models Manifest

/-- `obj.replace(minute=0, second=0, microsecond=0)` on a UTC timestamp
in seconds: floor to the hour. -/
def floorHour (t : Int) : Int := t - t % 3600

/-- The `while current <= end_hour: ...; current += timedelta(hours=1)`
loop of `plan_scan_node`, emitting each visited hour. -/
def hourRange (s e : Int) : List Int :=
  if s ≤ e then
    (List.range ((e - s).toNat / 3600 + 1)).map (fun k : Nat => s + 3600 * (k : Int))
  else []

/-- Result of `plan_scan_node`. Each emitted prefix is identified by the
datehour it is built from (`_build_log_prefix` embeds
`datehour.strftime("%Y/%m/%d/%H")` into the key prefix, so for a fixed
config and region the prefix determines the hour and vice versa). -/
structure ScanPlan where
  scan_hours : List Int
  scan_end_datehour : Option Str
deriving DecidableEq

/-- The `start_dt` computation of `plan_scan_node` (before the rounding
to the hour): the report-day start, pulled forward to
`max(report_start, checkpoint - lookback)` when force mode is off and a
truthy, parseable checkpoint exists. -/
def scan_start (force_reprocess : Bool) (manifest : ManifestState)
    (report_start : Int) : Int :=
  if ¬force_reprocess ∧ StrOps.truthy manifest.last_datehour then
    match Datehour.parseDatehour (manifest.last_datehour.getD []) with
    | some last_dt => max report_start (last_dt - manifest.lookback_hours * 3600)
    | none => report_start
  else report_start

/-- `workflow.plan_scan_node` for one region: scan start from
`scan_start` rounded down to the hour; hourly prefixes up to the
report-day end hour (`report_end - 1 second`, floored);
`scan_end_datehour` capped at the current hour and absent when no
prefix is emitted. -/
def plan_scan (force_reprocess : Bool) (manifest : ManifestState)
    (report_start report_end₀ now : Int) : ScanPlan :=
  let report_end := report_end₀ - 1
  let start_dt := floorHour (scan_start force_reprocess manifest report_start)
  let end_hour := floorHour report_end
  let hours := hourRange start_dt end_hour
  let now_hour := floorHour now
  let effective_end := min end_hour now_hour
  { scan_hours := hours
    scan_end_datehour :=
      if hours ≠ [] then some (Datehour.formatDatehour effective_end) else none }

/-- The key/etag part of `aws_s3.S3Object`. -/
structure S3Object where
  key : Str
  etag : Str
deriving DecidableEq

/-- The per-object test of `filter_new_objects_node`: force mode, or no
manifest entry, or a falsy (empty) entry, or a stored etag different
from the object's etag. -/
def is_new_object (force_reprocess : Bool)
    (processed : List (Str × List (Str × Str))) (obj : S3Object) : Bool :=
  force_reprocess ||
    match alookup obj.key processed with
    | none => true
    | some meta => meta = [] || ¬(alookup (str "etag") meta = some obj.etag)

/-- `workflow.filter_new_objects_node`: keep exactly the objects that
`is_new_object` accepts, in order. -/
def filter_new_objects (force_reprocess : Bool)
    (processed : List (Str × List (Str × Str))) (objects : List S3Object) :
    List S3Object :=
  objects.filter (is_new_object force_reprocess processed)

/-- One usage record of one object, as it reaches `metrics.add_usage` in
`ingest_objects_node`: already parsed, within the report window, token
counts extracted, model id normalized. -/
structure UsageEvent where
  region : Str
  identity : Str
  model_id : Str
  input_tokens : Int
  output_tokens : Int
  original_model_id : Option Str
deriving DecidableEq

/-- The metrics effect of `ingest_objects_node`: for each (new) object,
fetch and parse it (`fetch` abstracts `get_object_bytes`,
`parse_bedrock_records`, the timestamp filter and field extraction,
mapping an object key to its in-window usage records) and feed every
record to `add_usage` with cost 0. -/
def ingest_objects (fetch : Str → List UsageEvent) (objects : List S3Object)
    (m : Metrics) : Metrics :=
  objects.foldl
    (fun acc obj =>
      (fetch obj.key).foldl
        (fun mm ev =>
          mm.add_usage ev.region ev.identity ev.model_id ev.input_tokens
            ev.output_tokens 0 ev.original_model_id)
        acc)
    m

/-- The warning bump of `ingest_objects_node` (line 247): the
`missing_token_counts` counter increments when the fallback tier was
used or both extracted counts are zero. -/
def record_missing_tokens (input_tokens output_tokens : Int)
    (used_fallback : Bool) (counter : Nat) : Nat :=
  if used_fallback ∨ (input_tokens = 0 ∧ output_tokens = 0) then counter + 1
  else counter

/-- `workflow._sum_stats`. -/
def sum_stats (stats_map : List (Str × TokenStats)) : TokenStats :=
  stats_map.foldl
    (fun acc kv => acc.add kv.2.input_tokens kv.2.output_tokens kv.2.cost_usd)
    {}

/-- `workflow._stats_equal`: exact token equality, costs within 1/10000. -/
def stats_equal (left right : TokenStats) : Bool :=
  left.input_tokens = right.input_tokens &&
  left.output_tokens = right.output_tokens &&
  left.total_tokens = right.total_tokens &&
  |left.cost_usd - right.cost_usd| < (1 / 10000 : ℚ)

/-- `workflow.verify_results_node`: compare `totals` against the summed
region and identity maps, recording a named warning per mismatch. -/
def verify_results (m : Metrics) (w : Warnings) : Warnings :=
  let w₁ :=
    if ¬stats_equal m.totals (sum_stats m.by_region) then
      { w with verification_errors :=
          insert (str "by_region_mismatch") w.verification_errors }
    else w
  if ¬stats_equal m.totals (sum_stats m.by_identity) then
    { w₁ with verification_errors :=
        insert (str "by_identity_mismatch") w₁.verification_errors }
  else w₁

end Workflow

namespace Snapshot

open Assoc Models StrOps

/-- One serialized `TokenStats` dict; absent fields default (`.get(_, 0)`). -/
structure StatsDict where
  input_tokens : Option Int := none
  output_tokens : Option Int := none
  total_tokens : Option Int := none
  cost_usd : Option ℚ := none
deriving DecidableEq

def StatsDict.toStats (d : StatsDict) : TokenStats :=
  { input_tokens := d.input_tokens.getD 0
    output_tokens := d.output_tokens.getD 0
    total_tokens := d.total_tokens.getD 0
    cost_usd := d.cost_usd.getD 0 }

/-- One element of a list-shaped `by_usage_key`; `none` fields are
absent keys (`entry.get(...)` returning None). -/
structure UsageEntry where
  region : Option Str := none
  identity : Option Str := none
  model_id : Option Str := none
  stats : StatsDict := {}
deriving DecidableEq

/-- The serialized `by_usage_key`: a list (whose non-dict elements,
modelled as `none`, are skipped), a dict keyed by `"region|identity|model"`
strings, or any other shape (ignored). -/
inductive UsageEntries where
  | fromList (entries : List (Option UsageEntry))
  | fromDict (entries : List (Str × StatsDict))
  | other
deriving DecidableEq

/-- The `metrics` sub-document of a daily snapshot, shaped as
`load_metrics_from_snapshot` reads it. `totals = none` models an absent
`"totals"` key. -/
structure SnapshotMetrics where
  totals : Option StatsDict := none
  by_region : List (Str × StatsDict) := []
  by_identity : List (Str × StatsDict) := []
  by_model : List (Str × StatsDict) := []
  by_usage_key : UsageEntries := .fromList []
deriving DecidableEq

/-- Python string split on one character (`key.split("|")`). -/
def splitOn (c : Char) : Str → List Str
  | [] => [[]]
  | x :: xs =>
      if x = c then [] :: splitOn c xs
      else
        match splitOn c xs with
        | h :: t => (x :: h) :: t
        | [] => [[x]]

/-- `report_store.load_metrics_from_snapshot` on a well-typed snapshot
(each dimensional map, the granular entries and `totals` are loaded
independently of one another; nothing re-establishes the cross-map
invariants). The source returns None only when malformed data raises,
which cannot happen on this typed shape. -/
def load_metrics_from_snapshot (s : SnapshotMetrics) : Metrics :=
  let loadMap (l : List (Str × StatsDict)) : List (Str × TokenStats) :=
    l.foldl (fun acc kv => aset kv.1 kv.2.toStats acc) []
  let by_usage_key :=
    match s.by_usage_key with
    | .fromList entries =>
        entries.foldl
          (fun acc e? =>
            match e? with
            | none => acc
            | some e =>
                if truthy e.region ∧ truthy e.identity ∧
                    truthy e.model_id then
                  aset (e.region.getD [], e.identity.getD [], e.model_id.getD [])
                    e.stats.toStats acc
                else acc)
          []
    | .fromDict entries =>
        entries.foldl
          (fun acc kv =>
            match splitOn '|' kv.1 with
            | [r, i, mo] => aset (r, i, mo) kv.2.toStats acc
            | _ => acc)
          []
    | .other => []
  { totals := (s.totals.map StatsDict.toStats).getD {}
    by_region := loadMap s.by_region
    by_identity := loadMap s.by_identity
    by_model := loadMap s.by_model
    by_usage_key := by_usage_key
    model_id_map := [] }

end Snapshot

namespace Assoc

variable {κ V : Type} [DecidableEq κ]

theorem alookup_upsert_self (k : κ) (f : V → V) (d : V) (l : List (κ × V)) :
    alookup k (upsert k f d l) = some (f ((alookup k l).getD d)) := by
  induction l with
  | nil => simp [upsert, alookup]
  | cons kv rest ih =>
      obtain ⟨k', v⟩ := kv
      by_cases h : k' = k
      · subst h; simp [upsert, alookup]
      · simp [upsert, alookup, h, ih]

theorem alookup_upsert_ne (k k' : κ) (hne : k' ≠ k) (f : V → V) (d : V)
    (l : List (κ × V)) : alookup k' (upsert k f d l) = alookup k' l := by
  induction l with
  | nil => simp [upsert, alookup, Ne.symm hne]
  | cons kv rest ih =>
      obtain ⟨k'', v⟩ := kv
      by_cases h : k'' = k
      · subst h
        simp [upsert, alookup, Ne.symm hne]
      · simp [upsert, alookup, h, ih]

theorem alookup_aset_self (k : κ) (v : V) (l : List (κ × V)) :
    alookup k (aset k v l) = some v := by
  induction l with
  | nil => simp [aset, alookup]
  | cons kv rest ih =>
      obtain ⟨k', v'⟩ := kv
      by_cases h : k' = k
      · subst h; simp [aset, alookup]
      · simp [aset, alookup, h, ih]

theorem alookup_aset_ne (k k' : κ) (hne : k' ≠ k) (v : V) (l : List (κ × V)) :
    alookup k' (aset k v l) = alookup k' l := by
  induction l with
  | nil => simp [aset, alookup, Ne.symm hne]
  | cons kv rest ih =>
      obtain ⟨k'', v'⟩ := kv
      by_cases h : k'' = k
      · subst h
        simp [aset, alookup, Ne.symm hne]
      · simp [aset, alookup, h, ih]

theorem alookup_adjust_self (k : κ) (f : V → V) (l : List (κ × V)) :
    alookup k (adjust k f l) = (alookup k l).map f := by
  induction l with
  | nil => simp [adjust, alookup]
  | cons kv rest ih =>
      obtain ⟨k', v⟩ := kv
      by_cases h : k' = k
      · subst h; simp [adjust, alookup]
      · simp [adjust, alookup, h, ih]

theorem alookup_adjust_ne (k k' : κ) (hne : k' ≠ k) (f : V → V)
    (l : List (κ × V)) : alookup k' (adjust k f l) = alookup k' l := by
  induction l with
  | nil => simp [adjust, alookup]
  | cons kv rest ih =>
      obtain ⟨k'', v⟩ := kv
      by_cases h : k'' = k
      · subst h
        simp [adjust, alookup, Ne.symm hne]
      · simp [adjust, alookup, h, ih]

theorem alookup_of_mem_nodup {l : List (κ × V)} {k : κ} {v : V}
    (hnd : (l.map Prod.fst).Nodup) (hm : (k, v) ∈ l) : alookup k l = some v := by
  induction l with
  | nil => cases hm
  | cons kv rest ih =>
      obtain ⟨k', v'⟩ := kv
      simp only [List.map_cons, List.nodup_cons] at hnd
      rcases List.mem_cons.mp hm with h | h
      · cases h
        simp [alookup]
      · have hk : k' ≠ k := by
          intro he
          exact hnd.1 (he ▸ (List.mem_map.mpr ⟨(k, v), h, rfl⟩))
        simp [alookup, hk, ih hnd.2 h]

theorem alookup_upsert_isSome (k x : κ) (f : V → V) (d : V)
    (l : List (κ × V)) (h : (alookup x l).isSome = true) :
    (alookup x (upsert k f d l)).isSome = true := by
  by_cases hx : x = k
  · subst hx
    rw [alookup_upsert_self]
    rfl
  · rw [alookup_upsert_ne _ _ hx]
    exact h

theorem alookup_isSome_iff_mem (k : κ) (l : List (κ × V)) :
    (alookup k l).isSome ↔ k ∈ l.map Prod.fst := by
  induction l with
  | nil => simp [alookup]
  | cons kv rest ih =>
      obtain ⟨k', v⟩ := kv
      by_cases h : k' = k
      · subst h; simp [alookup]
      · simp [alookup, h, ih, Ne.symm h]

end Assoc

namespace StrOps

theorem isPrefixOf_append (p q : Str) : p.isPrefixOf (p ++ q) = true := by
  rw [List.isPrefixOf_iff_prefix]
  exact ⟨q, rfl⟩

theorem dropLit_append (p q : Str) : dropLit p (p ++ q) = some q := by
  unfold dropLit
  rw [if_pos (isPrefixOf_append p q), List.drop_left]

theorem breakOn_not_mem (c : Char) (a b : Str) (h : c ∉ a) :
    breakOn c (a ++ c :: b) = some (a, b) := by
  induction a with
  | nil => simp [breakOn]
  | cons x xs ih =>
      have hx : x ≠ c := fun hxc => h (hxc ▸ List.mem_cons_self x xs)
      have h' : c ∉ xs := fun hm => h (List.mem_cons_of_mem _ hm)
      simp [breakOn, hx, ih h']

theorem breakOn_exists_of_mem (c : Char) (s : Str) (h : c ∈ s) :
    ∃ a b, breakOn c s = some (a, b) := by
  induction s with
  | nil => cases h
  | cons x xs ih =>
      by_cases hx : x = c
      · exact ⟨[], xs, by simp [breakOn, hx]⟩
      · have hm : c ∈ xs := by
          rcases List.mem_cons.mp h with h | h
          · exact absurd h.symm hx
          · exact h
        obtain ⟨a, b, hab⟩ := ih hm
        exact ⟨x :: a, b, by simp [breakOn, hx, hab]⟩

theorem breakOn_append_left (c : Char) (x y x1 x2 : Str)
    (h : breakOn c x = some (x1, x2)) :
    breakOn c (x ++ y) = some (x1, x2 ++ y) := by
  induction x generalizing x1 x2 with
  | nil => simp [breakOn] at h
  | cons a xs ih =>
      by_cases hac : a = c
      · subst hac
        rw [show breakOn a (a :: xs) = some ([], xs) from by simp [breakOn]] at h
        simp only [Option.some.injEq, Prod.mk.injEq] at h
        obtain ⟨rfl, rfl⟩ := h
        simp [breakOn]
      · simp only [breakOn, if_neg hac] at h ⊢
        cases hbx : breakOn c xs with
        | none => rw [hbx] at h; cases h
        | some p =>
            obtain ⟨p1, p2⟩ := p
            rw [hbx] at h
            simp only [Option.some.injEq, Prod.mk.injEq] at h
            obtain ⟨rfl, rfl⟩ := h
            show (match breakOn c (xs ++ y) with
              | some (a1, b) => some (a :: a1, b)
              | none => none) = some (a :: p1, p2 ++ y)
            rw [ih p1 p2 hbx]

theorem splitOnSub_of_isPrefixOf (pat s : Str) (hne : pat ≠ [])
    (h : pat.isPrefixOf s = true) :
    splitOnSub pat s = some ([], s.drop pat.length) := by
  cases s with
  | nil =>
      cases pat with
      | nil => exact absurd rfl hne
      | cons a as => simp [List.isPrefixOf] at h
  | cons x xs => simp [splitOnSub, h]

end StrOps

namespace BedrockParser

open StrOps

theorem scopeMarker_chars (sc : Str) (hsc : sc ∈ scopeMarkers) :
    '\n' ∉ sc ∧ ':' ∉ sc ∧ '.' ∉ sc ∧ '/' ∉ sc := by
  have h : sc = str "us" ∨ sc = str "eu" ∨ sc = str "global" ∨
      sc = str "apac" := by
    simpa [scopeMarkers] using hsc
  rcases h with rfl | rfl | rfl | rfl <;>
    exact ⟨by decide, by decide, by decide, by decide⟩

theorem stripVersionSuffix_scope (sc rest : Str) (hsc : ':' ∉ sc) :
    stripVersionSuffix (sc ++ '.' :: rest) =
      sc ++ '.' :: stripVersionSuffix rest := by
  by_cases hmem : ':' ∈ rest
  · have hmem' : ':' ∈ sc ++ '.' :: rest :=
      List.mem_append.mpr (Or.inr (List.mem_cons_of_mem _ hmem))
    have hmemrev : ':' ∈ rest.reverse := List.mem_reverse.mpr hmem
    obtain ⟨r1, r2, hbr⟩ := breakOn_exists_of_mem ':' rest.reverse hmemrev
    unfold stripVersionSuffix beforeLast
    rw [if_pos hmem', if_pos hmem]
    have hrev : (sc ++ '.' :: rest).reverse =
        rest.reverse ++ ('.' :: sc.reverse) := by
      simp
    rw [hrev, breakOn_append_left ':' _ _ _ _ hbr, hbr]
    simp
  · have hnot : ':' ∉ sc ++ '.' :: rest := by
      intro hm
      rcases List.mem_append.mp hm with h | h
      · exact hsc h
      · rcases List.mem_cons.mp h with h | h
        · exact absurd h (by decide)
        · exact hmem h
    unfold stripVersionSuffix
    rw [if_neg hnot, if_neg hmem]

theorem matchProfile_arn (sc reg acct rest : Str) (hsc : sc ∈ scopeMarkers)
    (hreg : reg ≠ []) (hregc : ':' ∉ reg) (hacct : acct ≠ [])
    (hacctc : ':' ∉ acct) (hrest : rest ≠ []) (hrestn : '\n' ∉ rest) :
    matchInferenceProfile (profileArn sc reg acct rest) =
      some (sc ++ '.' :: rest) := by
  obtain ⟨hscn, hscc, hscd, hscs⟩ := scopeMarker_chars sc hsc
  have hlastne : (sc ++ '.' :: rest).getLast? ≠ some '\n' := by
    rw [List.getLast?_append_of_ne_nil _ (by simp),
      show ('.' :: rest) = ['.'] ++ rest from rfl,
      List.getLast?_append_of_ne_nil _ hrest]
    intro hl
    rw [List.getLast?_eq_getLast_of_ne_nil hrest] at hl
    exact hrestn (Option.some.inj hl ▸ List.getLast_mem hrest)
  have hnl : '\n' ∉ sc ++ '.' :: rest := by
    intro hm
    rcases List.mem_append.mp hm with h | h
    · exact hscn h
    · rcases List.mem_cons.mp h with h | h
      · exact absurd h (by decide)
      · exact hrestn h
  have hrlen : 0 < rest.length := List.length_pos.mpr hrest
  have hany : scopeMarkers.any
      (fun s => (s ++ ['.']).isPrefixOf (sc ++ '.' :: rest) &&
        decide ((sc ++ '.' :: rest).length > s.length + 1)) = true := by
    have h : sc = str "us" ∨ sc = str "eu" ∨ sc = str "global" ∨
        sc = str "apac" := by
      simpa [scopeMarkers] using hsc
    rcases h with rfl | rfl | rfl | rfl <;>
      · simp +decide +arith [scopeMarkers, List.isPrefixOf, str, hrlen]
        omega
  unfold matchInferenceProfile profileArn
  rw [dropLit_append]
  show (match breakOn ':' (reg ++ ':' :: (acct ++ ':' ::
      (str "inference-profile/" ++ (sc ++ '.' :: rest)))) with
    | none => none
    | some (seg1, s2) =>
      if seg1 = [] then none else
      match breakOn ':' s2 with
      | none => none
      | some (seg2, s3) =>
        if seg2 = [] then none else
        match dropLit (str "inference-profile/") s3 with
        | none => none
        | some g0 =>
          let g := if g0.getLast? = some '\n' then g0.dropLast else g0
          if scopeMarkers.any
               (fun s => (s ++ ['.']).isPrefixOf g &&
                 decide (g.length > s.length + 1)) ∧ '\n' ∉ g
          then some g else none) = some (sc ++ '.' :: rest)
  rw [breakOn_not_mem ':' reg _ hregc]
  show (if reg = [] then none else
    match breakOn ':' (acct ++ ':' ::
        (str "inference-profile/" ++ (sc ++ '.' :: rest))) with
    | none => none
    | some (seg2, s3) =>
      if seg2 = [] then none else
      match dropLit (str "inference-profile/") s3 with
      | none => none
      | some g0 =>
        let g := if g0.getLast? = some '\n' then g0.dropLast else g0
        if scopeMarkers.any
             (fun s => (s ++ ['.']).isPrefixOf g &&
               decide (g.length > s.length + 1)) ∧ '\n' ∉ g
        then some g else none) = some (sc ++ '.' :: rest)
  rw [if_neg hreg, breakOn_not_mem ':' acct _ hacctc]
  show (if acct = [] then none else
    match dropLit (str "inference-profile/")
        (str "inference-profile/" ++ (sc ++ '.' :: rest)) with
    | none => none
    | some g0 =>
      let g := if g0.getLast? = some '\n' then g0.dropLast else g0
      if scopeMarkers.any
           (fun s => (s ++ ['.']).isPrefixOf g &&
             decide (g.length > s.length + 1)) ∧ '\n' ∉ g
      then some g else none) = some (sc ++ '.' :: rest)
  rw [if_neg hacct, dropLit_append]
  show (let g := if (sc ++ '.' :: rest).getLast? = some '\n'
      then (sc ++ '.' :: rest).dropLast else sc ++ '.' :: rest
    if scopeMarkers.any
         (fun s => (s ++ ['.']).isPrefixOf g &&
           decide (g.length > s.length + 1)) ∧ '\n' ∉ g
    then some g else none) = some (sc ++ '.' :: rest)
  rw [show (if (sc ++ '.' :: rest).getLast? = some '\n'
      then (sc ++ '.' :: rest).dropLast else sc ++ '.' :: rest) =
      sc ++ '.' :: rest from if_neg hlastne]
  rw [if_pos ⟨hany, hnl⟩]

/-- `normalize_model_id` on an inference-profile ARN: the scope marker
is preserved and the trailing version suffix of the tail is stripped. -/
theorem normalize_model_id_arn (sc reg acct rest : Str)
    (hsc : sc ∈ scopeMarkers) (hreg : reg ≠ []) (hregc : ':' ∉ reg)
    (hacct : acct ≠ []) (hacctc : ':' ∉ acct) (hrest : rest ≠ [])
    (hrestn : '\n' ∉ rest) :
    normalize_model_id (profileArn sc reg acct rest) =
      sc ++ '.' :: stripVersionSuffix rest := by
  unfold normalize_model_id
  rw [matchProfile_arn sc reg acct rest hsc hreg hregc hacct hacctc hrest hrestn]
  exact stripVersionSuffix_scope sc rest (scopeMarker_chars sc hsc).2.1

/-- Two dot-free prefixes followed by a dot and arbitrary tails: the
prefixes of equal concatenations are equal. -/
theorem dot_marker_inj (s1 s2 t1 t2 : Str) (h1 : '.' ∉ s1) (h2 : '.' ∉ s2)
    (heq : s1 ++ '.' :: t1 = s2 ++ '.' :: t2) : s1 = s2 := by
  induction s1 generalizing s2 with
  | nil =>
      cases s2 with
      | nil => rfl
      | cons c s2' =>
          rw [List.nil_append, List.cons_append] at heq
          have : c = '.' := (List.cons.injEq _ _ _ _ ▸ heq).1.symm
          exact absurd (this ▸ List.mem_cons_self c s2') h2
  | cons c s1' ih =>
      cases s2 with
      | nil =>
          rw [List.nil_append, List.cons_append] at heq
          have : c = '.' := (List.cons.injEq _ _ _ _ ▸ heq).1
          exact absurd (this ▸ List.mem_cons_self c s1') h1
      | cons c' s2' =>
          rw [List.cons_append, List.cons_append] at heq
          obtain ⟨hc, ht⟩ := List.cons.injEq _ _ _ _ ▸ heq
          have h1' : '.' ∉ s1' := fun hm => h1 (List.mem_cons_of_mem _ hm)
          have h2' : '.' ∉ s2' := fun hm => h2 (List.mem_cons_of_mem _ hm)
          rw [hc, ih s2' h1' h2' ht]

theorem slashFreeLen_marker (tail : Str) :
    slashFreeLen (str "inference-profile/" ++ tail) = 17 := rfl

theorem slashFreeLen_append (a tail : Str) (ha : '/' ∉ a) :
    slashFreeLen (a ++ (str "inference-profile/" ++ tail)) =
      a.length + 17 := by
  induction a with
  | nil => simp [slashFreeLen_marker]
  | cons c a' ih =>
      have hc : c ≠ '/' := fun h => ha (h ▸ List.mem_cons_self c a')
      have ha' : '/' ∉ a' := fun hm => ha (List.mem_cons_of_mem _ hm)
      rw [List.cons_append]
      show (if c = '/' then 0
        else slashFreeLen (a' ++ (str "inference-profile/" ++ tail)) + 1) =
        (c :: a').length + 17
      rw [if_neg hc, ih ha', List.length_cons]

theorem marker_not_prefixOf (a tail : Str) (ha : '/' ∉ a) (hne : a ≠ []) :
    (str "inference-profile/").isPrefixOf
      (a ++ (str "inference-profile/" ++ tail)) = false := by
  by_contra hb
  rw [Bool.not_eq_false, List.isPrefixOf_iff_prefix] at hb
  obtain ⟨t, ht⟩ := hb
  have h17 : slashFreeLen (str "inference-profile/" ++ t) = 17 :=
    slashFreeLen_marker t
  rw [ht, slashFreeLen_append a tail ha] at h17
  exact hne (List.length_eq_zero.mp (by omega))

theorem splitOnSub_marker (pre tail : Str) (hpre : '/' ∉ pre) :
    StrOps.splitOnSub (str "inference-profile/")
      (pre ++ (str "inference-profile/" ++ tail)) = some (pre, tail) := by
  induction pre with
  | nil =>
      rw [List.nil_append,
        StrOps.splitOnSub_of_isPrefixOf _ _ (by decide)
          (StrOps.isPrefixOf_append _ _),
        List.drop_left]
  | cons c pre' ih =>
      have hnp := marker_not_prefixOf (c :: pre') tail hpre
        (List.cons_ne_nil c pre')
      have ha' : '/' ∉ pre' := fun hm => hpre (List.mem_cons_of_mem _ hm)
      rw [List.cons_append]
      have hnp' : (str "inference-profile/").isPrefixOf
          (c :: (pre' ++ (str "inference-profile/" ++ tail))) = false := by
        rw [← List.cons_append]
        exact hnp
      show (if (str "inference-profile/").isPrefixOf
          (c :: (pre' ++ (str "inference-profile/" ++ tail))) = true
        then some (([] : Str),
          (c :: (pre' ++ (str "inference-profile/" ++ tail))).drop
            (str "inference-profile/").length)
        else
          match StrOps.splitOnSub (str "inference-profile/")
              (pre' ++ (str "inference-profile/" ++ tail)) with
          | some (a, b) => some (c :: a, b)
          | none => none) = some (c :: pre', tail)
      rw [hnp']
      simp only [Bool.false_eq_true, if_false]
      rw [ih ha']

end BedrockParser

namespace Pricing

open StrOps BedrockParser

theorem get_pricing_model_key_arn (sc reg acct rest : Str)
    (hsc : sc ∈ scopeMarkers) (hregs : '/' ∉ reg) (haccts : '/' ∉ acct) :
    get_pricing_model_key (profileArn sc reg acct rest) =
      sc ++ '.' :: stripVersionSuffix rest := by
  have hassoc : profileArn sc reg acct rest =
      (str "arn:aws:bedrock:" ++ (reg ++ ':' :: (acct ++ [':']))) ++
        (str "inference-profile/" ++ (sc ++ '.' :: rest)) := by
    simp [profileArn]
  have hpre : '/' ∉ str "arn:aws:bedrock:" ++ (reg ++ ':' :: (acct ++ [':'])) := by
    intro hm
    rcases List.mem_append.mp hm with h | h
    · exact absurd h (by decide)
    · rcases List.mem_append.mp h with h | h
      · exact hregs h
      · rcases List.mem_cons.mp h with h | h
        · exact absurd h (by decide)
        · rcases List.mem_append.mp h with h | h
          · exact haccts h
          · exact absurd h (by decide)
  unfold get_pricing_model_key
  rw [hassoc, splitOnSub_marker _ _ hpre]
  exact stripVersionSuffix_scope sc rest (scopeMarker_chars sc hsc).2.1

end Pricing

namespace Models

open Assoc

theorem TokenStats.add_zero_zero (s : TokenStats) : s.add 0 0 0 = s := by
  ext <;> simp [TokenStats.add]

theorem sumInput_upsert_add {κ : Type} [DecidableEq κ] (k : κ) (i o : Int)
    (c : ℚ) (l : List (κ × TokenStats)) :
    sumInput (upsert k (·.add i o c) {} l) = sumInput l + i := by
  induction l with
  | nil => simp [upsert, sumInput, TokenStats.add]
  | cons kv rest ih =>
      obtain ⟨k', v⟩ := kv
      by_cases h : k' = k
      · subst h
        simp [upsert, sumInput, TokenStats.add] at *
        ring
      · simp [upsert, sumInput, h] at *
        rw [ih]
        ring

theorem sumOutput_upsert_add {κ : Type} [DecidableEq κ] (k : κ) (i o : Int)
    (c : ℚ) (l : List (κ × TokenStats)) :
    sumOutput (upsert k (·.add i o c) {} l) = sumOutput l + o := by
  induction l with
  | nil => simp [upsert, sumOutput, TokenStats.add]
  | cons kv rest ih =>
      obtain ⟨k', v⟩ := kv
      by_cases h : k' = k
      · subst h
        simp [upsert, sumOutput, TokenStats.add] at *
        ring
      · simp [upsert, sumOutput, h] at *
        rw [ih]
        ring

theorem sumCost_upsert_add {κ : Type} [DecidableEq κ] (k : κ) (i o : Int)
    (c : ℚ) (l : List (κ × TokenStats)) :
    sumCost (upsert k (·.add i o c) {} l) = sumCost l + c := by
  induction l with
  | nil => simp [upsert, sumCost, TokenStats.add]
  | cons kv rest ih =>
      obtain ⟨k', v⟩ := kv
      by_cases h : k' = k
      · subst h
        simp [upsert, sumCost, TokenStats.add] at *
        ring
      · simp [upsert, sumCost, h] at *
        rw [ih]
        ring

end Models

namespace Workflow

open Assoc Models

theorem foldl_add_stats (l : List (Str × TokenStats)) (acc : TokenStats) :
    l.foldl (fun a kv => a.add kv.2.input_tokens kv.2.output_tokens kv.2.cost_usd)
      acc =
    { input_tokens := acc.input_tokens + sumInput l
      output_tokens := acc.output_tokens + sumOutput l
      total_tokens := acc.total_tokens + sumInput l + sumOutput l
      cost_usd := acc.cost_usd + sumCost l } := by
  induction l generalizing acc with
  | nil =>
      simp only [List.foldl_nil, sumInput, sumOutput, sumCost, List.map_nil,
        List.sum_nil]
      ext <;> simp
  | cons kv rest ih =>
      rw [List.foldl_cons, ih]
      simp only [sumInput, sumOutput, sumCost, List.map_cons, List.sum_cons,
        TokenStats.add]
      ext <;> dsimp <;> ring

theorem sum_stats_eq (l : List (Str × TokenStats)) :
    sum_stats l =
      { input_tokens := sumInput l
        output_tokens := sumOutput l
        total_tokens := sumInput l + sumOutput l
        cost_usd := sumCost l } := by
  rw [sum_stats, foldl_add_stats]
  ext <;> simp

theorem stats_equal_self (s : TokenStats) : stats_equal s s = true := by
  simp [stats_equal]

/-- After any `add_usage` call, equality of `totals` with the summed
region map is preserved, and likewise for the identity map. -/
theorem add_usage_preserves_sums (m : Metrics) (c : UsageCall)
    (hr : m.totals = sum_stats m.by_region)
    (hi : m.totals = sum_stats m.by_identity) :
    (m.add_usage_call c).totals = sum_stats (m.add_usage_call c).by_region ∧
    (m.add_usage_call c).totals = sum_stats (m.add_usage_call c).by_identity := by
  rw [sum_stats_eq] at hr hi
  refine ⟨?_, ?_⟩
  · simp only [Metrics.add_usage_call, Metrics.add_usage, sum_stats_eq,
      sumInput_upsert_add, sumOutput_upsert_add, sumCost_upsert_add]
    rw [hr]
    simp only [TokenStats.add]
    ext <;> dsimp <;> ring
  · simp only [Metrics.add_usage_call, Metrics.add_usage, sum_stats_eq,
      sumInput_upsert_add, sumOutput_upsert_add, sumCost_upsert_add]
    rw [hi]
    simp only [TokenStats.add]
    ext <;> dsimp <;> ring

theorem applyUsageCalls_sums (calls : List UsageCall) :
    (applyUsageCalls calls {}).totals =
      sum_stats (applyUsageCalls calls {}).by_region ∧
    (applyUsageCalls calls {}).totals =
      sum_stats (applyUsageCalls calls {}).by_identity := by
  suffices h : ∀ (m : Metrics),
      m.totals = sum_stats m.by_region → m.totals = sum_stats m.by_identity →
      (applyUsageCalls calls m).totals =
        sum_stats (applyUsageCalls calls m).by_region ∧
      (applyUsageCalls calls m).totals =
        sum_stats (applyUsageCalls calls m).by_identity by
    refine h {} ?_ ?_ <;> (rw [sum_stats_eq]; ext <;> simp [sumInput, sumOutput, sumCost])
  induction calls with
  | nil => intro m h1 h2; exact ⟨h1, h2⟩
  | cons c rest ih =>
      intro m h1 h2
      obtain ⟨h1', h2'⟩ := add_usage_preserves_sums m c h1 h2
      exact ih (m.add_usage_call c) h1' h2'

theorem floorHour_dvd (t : Int) : (3600 : Int) ∣ floorHour t := by
  refine ⟨t / 3600, ?_⟩
  have h := Int.ediv_add_emod t 3600
  unfold floorHour
  omega

theorem floorHour_le (t : Int) : floorHour t ≤ t := by
  have h := Int.emod_nonneg t (by norm_num : (3600 : Int) ≠ 0)
  unfold floorHour
  omega

theorem hourRange_ne_nil_iff (s e : Int) : hourRange s e ≠ [] ↔ s ≤ e := by
  unfold hourRange
  by_cases h : s ≤ e <;> simp [h, List.range_eq_nil]

theorem hourRange_head (s e : Int) (h : s ≤ e) :
    (hourRange s e).head? = some s := by
  unfold hourRange
  rw [if_pos h, List.range_succ_eq_map]
  simp

theorem hourRange_getLast (s e : Int) (h : s ≤ e) (hd : (3600 : Int) ∣ e - s) :
    (hourRange s e).getLast? = some e := by
  unfold hourRange
  rw [if_pos h, List.range_succ, List.map_append]
  simp only [List.map_cons, List.map_nil]
  rw [List.getLast?_concat]
  obtain ⟨k, hk⟩ := hd
  congr 1
  omega

end Workflow

namespace Models

open Assoc Pricing

theorem alookup_zeroCosts {κ : Type} [DecidableEq κ] (k : κ)
    (l : List (κ × TokenStats)) :
    alookup k (zeroCosts l) =
      (alookup k l).map (fun v => { v with cost_usd := 0 }) := by
  induction l with
  | nil => simp [zeroCosts, alookup]
  | cons kv rest ih =>
      obtain ⟨k', v⟩ := kv
      simp only [zeroCosts, List.map_cons] at ih ⊢
      by_cases h : k' = k <;> simp [alookup, h, ih]

theorem mergeStatsMap_nil {κ : Type} [DecidableEq κ]
    (dst : List (κ × TokenStats)) : mergeStatsMap dst [] = dst := rfl

theorem totalCost_cons (gr : Str → Str → Option PriceRate)
    (mim : List (Str × Str)) (e : UsageKey × TokenStats)
    (rest : List (UsageKey × TokenStats)) :
    totalCost gr mim (e :: rest) = costOfEntry gr mim e + totalCost gr mim rest := by
  simp [totalCost]

theorem totalCostWhere_cons (gr : Str → Str → Option PriceRate)
    (mim : List (Str × Str)) (p : UsageKey → Bool) (e : UsageKey × TokenStats)
    (rest : List (UsageKey × TokenStats)) :
    totalCostWhere gr mim p (e :: rest) =
      (if p e.1 = true then costOfEntry gr mim e else 0) +
        totalCostWhere gr mim p rest := by
  by_cases h : p e.1 = true <;> simp [totalCostWhere, List.filter_cons, h]

theorem applyPricingStep_ok (gr : Str → Str → Option PriceRate)
    (e : UsageKey × TokenStats) (m : Metrics) (w : Warnings)
    (ts_r ts_i ts_m : TokenStats)
    (h1 : alookup e.1.1 m.by_region = some ts_r)
    (h2 : alookup e.1.2.1 m.by_identity = some ts_i)
    (h3 : alookup e.1.2.2 m.by_model = some ts_m) :
    applyPricingStep gr e (m, w) = .ok
      ({ m with
          totals := { m.totals with cost_usd :=
            m.totals.cost_usd + costOfEntry gr m.model_id_map e }
          by_usage_key := adjust e.1
            (fun s => { s with cost_usd := costOfEntry gr m.model_id_map e })
            m.by_usage_key
          by_region := aset e.1.1
            { ts_r with cost_usd :=
                ts_r.cost_usd + costOfEntry gr m.model_id_map e } m.by_region
          by_identity := aset e.1.2.1
            { ts_i with cost_usd :=
                ts_i.cost_usd + costOfEntry gr m.model_id_map e } m.by_identity
          by_model := aset e.1.2.2
            { ts_m with cost_usd :=
                ts_m.cost_usd + costOfEntry gr m.model_id_map e } m.by_model },
        stepWarnings gr m.model_id_map e w) := by
  unfold applyPricingStep stepWarnings costOfEntry
  cases hrate : gr ((alookup e.1.2.2 m.model_id_map).getD e.1.2.2) e.1.1 with
  | none => simp [h1, h2, h3, hrate]
  | some r =>
      by_cases hmiss : (r.missing_input || r.missing_output) = true <;>
        simp [h1, h2, h3, hrate, hmiss]

theorem applyPricingStep_error (gr : Str → Str → Option PriceRate)
    (e : UsageKey × TokenStats) (m : Metrics) (w : Warnings)
    (h : alookup e.1.1 m.by_region = none ∨
         alookup e.1.2.1 m.by_identity = none ∨
         alookup e.1.2.2 m.by_model = none) :
    applyPricingStep gr e (m, w) = .error (str "KeyError") := by
  unfold applyPricingStep
  rcases h with h | h | h
  · simp [h]
  · cases h1 : alookup e.1.1 m.by_region <;> simp [h1, h]
  · cases h1 : alookup e.1.1 m.by_region <;>
      cases h2 : alookup e.1.2.1 m.by_identity <;> simp [h1, h2, h]

theorem applyPricingLoop_ok (gr : Str → Str → Option PriceRate)
    (entries : List (UsageKey × TokenStats)) (m : Metrics) (w : Warnings)
    (hdims : ∀ e ∈ entries,
      (alookup e.1.1 m.by_region).isSome ∧
      (alookup e.1.2.1 m.by_identity).isSome ∧
      (alookup e.1.2.2 m.by_model).isSome) :
    ∃ m' w', applyPricingLoop gr entries (m, w) = .ok (m', w') ∧
      m'.model_id_map = m.model_id_map ∧
      m'.totals = { m.totals with cost_usd :=
        m.totals.cost_usd + totalCost gr m.model_id_map entries } ∧
      (∀ r ts, alookup r m.by_region = some ts →
        alookup r m'.by_region =
          some { ts with
                 cost_usd := ts.cost_usd + totalCostWhere gr m.model_id_map
                   (fun k => decide (k.1 = r)) entries }) ∧
      (∀ i ts, alookup i m.by_identity = some ts →
        alookup i m'.by_identity =
          some { ts with
                 cost_usd := ts.cost_usd + totalCostWhere gr m.model_id_map
                   (fun k => decide (k.2.1 = i)) entries }) ∧
      (∀ mo ts, alookup mo m.by_model = some ts →
        alookup mo m'.by_model =
          some { ts with
                 cost_usd := ts.cost_usd + totalCostWhere gr m.model_id_map
                   (fun k => decide (k.2.2 = mo)) entries }) ∧
      (∀ k, k ∉ entries.map (fun e => e.1) →
        alookup k m'.by_usage_key = alookup k m.by_usage_key) ∧
      ((entries.map (fun e => e.1)).Nodup →
        ∀ e ∈ entries, ∀ v, alookup e.1 m.by_usage_key = some v →
          alookup e.1 m'.by_usage_key =
            some { v with cost_usd := costOfEntry gr m.model_id_map e }) ∧
      w.unpriced_models ⊆ w'.unpriced_models ∧
      (∀ e ∈ entries,
        gr ((alookup e.1.2.2 m.model_id_map).getD e.1.2.2) e.1.1 = none →
          e.1.2.2 ∈ w'.unpriced_models) := by
  induction entries generalizing m w with
  | nil =>
      refine ⟨m, w, rfl, rfl, ?_, ?_, ?_, ?_, fun _ _ => rfl, fun _ e he => absurd he (List.not_mem_nil e), subset_rfl, fun e he => absurd he (List.not_mem_nil e)⟩
      · simp only [totalCost, List.map_nil, List.sum_nil]
        ext <;> simp
      all_goals
        intro x ts h
        rw [h]
        congr 1
        simp only [totalCostWhere, List.filter_nil, List.map_nil, List.sum_nil]
        ext <;> simp
  | cons e rest ih =>
      obtain ⟨hr, hi, hm⟩ := hdims e (List.mem_cons_self e rest)
      obtain ⟨ts_r, h1⟩ := Option.isSome_iff_exists.mp hr
      obtain ⟨ts_i, h2⟩ := Option.isSome_iff_exists.mp hi
      obtain ⟨ts_m, h3⟩ := Option.isSome_iff_exists.mp hm
      set c := costOfEntry gr m.model_id_map e with hc
      set mS : Metrics := { m with
          totals := { m.totals with cost_usd := m.totals.cost_usd + c }
          by_usage_key := adjust e.1
            (fun s => { s with cost_usd := c }) m.by_usage_key
          by_region := aset e.1.1
            { ts_r with cost_usd := ts_r.cost_usd + c } m.by_region
          by_identity := aset e.1.2.1
            { ts_i with cost_usd := ts_i.cost_usd + c } m.by_identity
          by_model := aset e.1.2.2
            { ts_m with cost_usd := ts_m.cost_usd + c } m.by_model } with hmS
      have hstep := applyPricingStep_ok gr e m w ts_r ts_i ts_m h1 h2 h3
      have hloop : applyPricingLoop gr (e :: rest) (m, w) =
          applyPricingLoop gr rest (mS, stepWarnings gr m.model_id_map e w) := by
        rw [applyPricingLoop, hstep]
      have hRmem : ∀ x, (alookup x m.by_region).isSome →
          (alookup x mS.by_region).isSome := by
        intro x hx
        by_cases hxe : x = e.1.1
        · subst hxe; simp [hmS, alookup_aset_self]
        · simpa [hmS, alookup_aset_ne _ _ hxe] using hx
      have hImem : ∀ x, (alookup x m.by_identity).isSome →
          (alookup x mS.by_identity).isSome := by
        intro x hx
        by_cases hxe : x = e.1.2.1
        · subst hxe; simp [hmS, alookup_aset_self]
        · simpa [hmS, alookup_aset_ne _ _ hxe] using hx
      have hMmem : ∀ x, (alookup x m.by_model).isSome →
          (alookup x mS.by_model).isSome := by
        intro x hx
        by_cases hxe : x = e.1.2.2
        · subst hxe; simp [hmS, alookup_aset_self]
        · simpa [hmS, alookup_aset_ne _ _ hxe] using hx
      have hdims' : ∀ e' ∈ rest,
          (alookup e'.1.1 mS.by_region).isSome ∧
          (alookup e'.1.2.1 mS.by_identity).isSome ∧
          (alookup e'.1.2.2 mS.by_model).isSome := by
        intro e' he'
        obtain ⟨a, b, c'⟩ := hdims e' (List.mem_cons_of_mem e he')
        exact ⟨hRmem _ a, hImem _ b, hMmem _ c'⟩
      obtain ⟨m', w', hrun, hmim, htot, hreg, hid, hmod, hpres, hgran, hsub, hunp⟩ :=
        ih mS (stepWarnings gr m.model_id_map e w) hdims'
      have hmimS : mS.model_id_map = m.model_id_map := rfl
      refine ⟨m', w', by rw [hloop, hrun], by rw [hmim, hmimS], ?_, ?_, ?_, ?_, ?_, ?_, ?_, ?_⟩
      · rw [htot, totalCost_cons]
        ext <;> simp [hmS, hmimS, ← hc] <;> ring
      · intro r ts h
        rw [totalCostWhere_cons]
        by_cases hre : e.1.1 = r
        · subst hre
          have hts : ts_r = ts := by rw [h1] at h; injection h
          subst hts
          have hS : alookup e.1.1 mS.by_region =
              some { ts_r with cost_usd := ts_r.cost_usd + c } := by
            simp [hmS, alookup_aset_self]
          rw [hreg e.1.1 _ hS]
          refine congrArg some ?_
          ext <;> simp [hmimS, ← hc] <;> ring
        · have hS : alookup r mS.by_region = some ts := by
            rw [show mS.by_region = aset e.1.1
              { ts_r with cost_usd := ts_r.cost_usd + c } m.by_region from rfl,
              alookup_aset_ne _ _ (Ne.symm hre)]
            exact h
          rw [hreg r ts hS]
          refine congrArg some ?_
          ext <;> simp [hmimS, hre]
      · intro i ts h
        rw [totalCostWhere_cons]
        by_cases hre : e.1.2.1 = i
        · subst hre
          have hts : ts_i = ts := by rw [h2] at h; injection h
          subst hts
          have hS : alookup e.1.2.1 mS.by_identity =
              some { ts_i with cost_usd := ts_i.cost_usd + c } := by
            simp [hmS, alookup_aset_self]
          rw [hid e.1.2.1 _ hS]
          refine congrArg some ?_
          ext <;> simp [hmimS, ← hc] <;> ring
        · have hS : alookup i mS.by_identity = some ts := by
            rw [show mS.by_identity = aset e.1.2.1
              { ts_i with cost_usd := ts_i.cost_usd + c } m.by_identity from rfl,
              alookup_aset_ne _ _ (Ne.symm hre)]
            exact h
          rw [hid i ts hS]
          refine congrArg some ?_
          ext <;> simp [hmimS, hre]
      · intro mo ts h
        rw [totalCostWhere_cons]
        by_cases hre : e.1.2.2 = mo
        · subst hre
          have hts : ts_m = ts := by rw [h3] at h; injection h
          subst hts
          have hS : alookup e.1.2.2 mS.by_model =
              some { ts_m with cost_usd := ts_m.cost_usd + c } := by
            simp [hmS, alookup_aset_self]
          rw [hmod e.1.2.2 _ hS]
          refine congrArg some ?_
          ext <;> simp [hmimS, ← hc] <;> ring
        · have hS : alookup mo mS.by_model = some ts := by
            rw [show mS.by_model = aset e.1.2.2
              { ts_m with cost_usd := ts_m.cost_usd + c } m.by_model from rfl,
              alookup_aset_ne _ _ (Ne.symm hre)]
            exact h
          rw [hmod mo ts hS]
          refine congrArg some ?_
          ext <;> simp [hmimS, hre]
      · intro k hk
        rw [List.map_cons] at hk
        have hk1 : k ≠ e.1 := by
          intro hke; exact hk (hke ▸ List.mem_cons_self _ _)
        have hk2 : k ∉ rest.map (fun e => e.1) := by
          intro hkr; exact hk (List.mem_cons_of_mem _ hkr)
        rw [hpres k hk2]
        rw [show mS.by_usage_key = adjust e.1
          (fun s => { s with cost_usd := c }) m.by_usage_key from rfl,
          alookup_adjust_ne _ _ hk1]
      · intro hnd e' he' v hv
        rw [List.map_cons] at hnd
        have hndr : (rest.map (fun e => e.1)).Nodup := hnd.of_cons
        have hhead : e.1 ∉ rest.map (fun e => e.1) := (List.nodup_cons.mp hnd).1
        rcases List.mem_cons.mp he' with rfl | he''
        · have hS : alookup e'.1 mS.by_usage_key =
              some { v with cost_usd := c } := by
            rw [show mS.by_usage_key = adjust e'.1
              (fun s => { s with cost_usd := c }) m.by_usage_key from rfl,
              alookup_adjust_self, hv]
            rfl
          rw [hpres e'.1 hhead, hS, ← hc]
        · have hne : e'.1 ≠ e.1 := by
            intro hee
            exact hhead (hee ▸ List.mem_map.mpr ⟨e', he'', rfl⟩)
          have hS : alookup e'.1 mS.by_usage_key = some v := by
            rw [show mS.by_usage_key = adjust e.1
              (fun s => { s with cost_usd := c }) m.by_usage_key from rfl,
              alookup_adjust_ne _ _ hne, hv]
          have := hgran hndr e' he'' v hS
          rw [this, hmimS]
      · refine subset_trans ?_ hsub
        unfold stepWarnings
        cases gr ((alookup e.1.2.2 m.model_id_map).getD e.1.2.2) e.1.1 with
        | none => exact Finset.subset_insert _ _
        | some r =>
            by_cases hmiss : (r.missing_input || r.missing_output) = true <;>
              simp [hmiss]
      · intro e' he' hrate
        rcases List.mem_cons.mp he' with rfl | he''
        · apply hsub
          unfold stepWarnings
          rw [hrate]
          exact Finset.mem_insert_self _ _
        · exact hunp e' he'' (by rw [hmimS]; exact hrate)

theorem mem_upsert {κ V : Type} [DecidableEq κ] (k : κ) (f : V → V) (d : V)
    (l : List (κ × V)) (e : κ × V) (he : e ∈ upsert k f d l) :
    e.1 = k ∨ e ∈ l := by
  induction l with
  | nil =>
      simp only [upsert, List.mem_singleton] at he
      exact Or.inl (he ▸ rfl)
  | cons kv rest ih =>
      obtain ⟨k', v⟩ := kv
      by_cases h : k' = k
      · subst h
        simp only [upsert, if_pos rfl] at he
        rcases List.mem_cons.mp he with rfl | he'
        · exact Or.inl rfl
        · exact Or.inr (List.mem_cons_of_mem _ he')
      · simp only [upsert, if_neg h] at he
        rcases List.mem_cons.mp he with rfl | he'
        · exact Or.inr (List.mem_cons_self _ _)
        · rcases ih he' with h1 | h1
          · exact Or.inl h1
          · exact Or.inr (List.mem_cons_of_mem _ h1)

theorem mem_map_fst_upsert {κ V : Type} [DecidableEq κ] (k : κ) (f : V → V)
    (d : V) (l : List (κ × V)) (x : κ) :
    x ∈ (upsert k f d l).map Prod.fst ↔ x = k ∨ x ∈ l.map Prod.fst := by
  induction l with
  | nil => simp [upsert]
  | cons kv rest ih =>
      obtain ⟨k', v⟩ := kv
      by_cases h : k' = k
      · subst h
        have hu : upsert k' f d ((k', v) :: rest) = (k', f v) :: rest := by
          simp [upsert]
        rw [hu]
        simp only [List.map_cons, List.mem_cons]
        tauto
      · have hu : upsert k f d ((k', v) :: rest) =
            (k', v) :: upsert k f d rest := by
          simp [upsert, h]
        rw [hu]
        simp only [List.map_cons, List.mem_cons, ih]
        tauto

theorem mem_map_fst_mergeStatsMap {κ : Type} [DecidableEq κ]
    (dst src : List (κ × TokenStats)) (x : κ) :
    x ∈ (mergeStatsMap dst src).map Prod.fst ↔
      x ∈ dst.map Prod.fst ∨ x ∈ src.map Prod.fst := by
  induction src generalizing dst with
  | nil => simp [mergeStatsMap]
  | cons kv src' ih =>
      rw [show mergeStatsMap dst (kv :: src') =
        mergeStatsMap
          (upsert kv.1 (·.add kv.2.input_tokens kv.2.output_tokens 0) {} dst)
          src' from rfl]
      rw [ih]
      simp only [mem_map_fst_upsert, List.map_cons, List.mem_cons]
      tauto

theorem exists_value_of_mem_map_fst {κ V : Type} {l : List (κ × V)} {x : κ}
    (h : x ∈ l.map Prod.fst) : ∃ v, (x, v) ∈ l := by
  obtain ⟨p, hp, hpx⟩ := List.mem_map.mp h
  exact ⟨p.2, by rw [← hpx]; exact hp⟩

theorem applyPricingLoop_error (gr : Str → Str → Option PriceRate)
    (entries : List (UsageKey × TokenStats)) (m : Metrics) (w : Warnings)
    (hbad : ∃ e ∈ entries,
      alookup e.1.1 m.by_region = none ∨
      alookup e.1.2.1 m.by_identity = none ∨
      alookup e.1.2.2 m.by_model = none) :
    applyPricingLoop gr entries (m, w) = .error (str "KeyError") := by
  induction entries generalizing m w with
  | nil =>
      obtain ⟨e, he, _⟩ := hbad
      exact absurd he (List.not_mem_nil e)
  | cons e rest ih =>
      obtain ⟨e', he', hb⟩ := hbad
      by_cases hok : (alookup e.1.1 m.by_region).isSome = true ∧
          (alookup e.1.2.1 m.by_identity).isSome = true ∧
          (alookup e.1.2.2 m.by_model).isSome = true
      · obtain ⟨hr, hi, hm⟩ := hok
        obtain ⟨ts_r, h1⟩ := Option.isSome_iff_exists.mp hr
        obtain ⟨ts_i, h2⟩ := Option.isSome_iff_exists.mp hi
        obtain ⟨ts_m, h3⟩ := Option.isSome_iff_exists.mp hm
        have he'' : e' ∈ rest := by
          rcases List.mem_cons.mp he' with rfl | h
          · exfalso
            rcases hb with hb | hb | hb
            · rw [h1] at hb; cases hb
            · rw [h2] at hb; cases hb
            · rw [h3] at hb; cases hb
          · exact h
        have htransR : ∀ x, alookup x m.by_region = none →
            alookup x (aset e.1.1
              { ts_r with cost_usd :=
                  ts_r.cost_usd + costOfEntry gr m.model_id_map e }
              m.by_region) = none := by
          intro x hx
          have hne : x ≠ e.1.1 := by intro h; rw [h, h1] at hx; cases hx
          rw [alookup_aset_ne _ _ hne]; exact hx
        have htransI : ∀ x, alookup x m.by_identity = none →
            alookup x (aset e.1.2.1
              { ts_i with cost_usd :=
                  ts_i.cost_usd + costOfEntry gr m.model_id_map e }
              m.by_identity) = none := by
          intro x hx
          have hne : x ≠ e.1.2.1 := by intro h; rw [h, h2] at hx; cases hx
          rw [alookup_aset_ne _ _ hne]; exact hx
        have htransM : ∀ x, alookup x m.by_model = none →
            alookup x (aset e.1.2.2
              { ts_m with cost_usd :=
                  ts_m.cost_usd + costOfEntry gr m.model_id_map e }
              m.by_model) = none := by
          intro x hx
          have hne : x ≠ e.1.2.2 := by intro h; rw [h, h3] at hx; cases hx
          rw [alookup_aset_ne _ _ hne]; exact hx
        rw [applyPricingLoop, applyPricingStep_ok gr e m w ts_r ts_i ts_m h1 h2 h3]
        apply ih
        refine ⟨e', he'', ?_⟩
        rcases hb with hb | hb | hb
        · exact Or.inl (htransR _ hb)
        · exact Or.inr (Or.inl (htransI _ hb))
        · exact Or.inr (Or.inr (htransM _ hb))
      · have hb' : alookup e.1.1 m.by_region = none ∨
            alookup e.1.2.1 m.by_identity = none ∨
            alookup e.1.2.2 m.by_model = none := by
          by_contra hno
          push_neg at hno
          exact hok ⟨Option.ne_none_iff_isSome.mp hno.1,
            Option.ne_none_iff_isSome.mp hno.2.1,
            Option.ne_none_iff_isSome.mp hno.2.2⟩
        rw [applyPricingLoop, applyPricingStep_error gr e m w hb']

/-- The full cost-rollup contract of `apply_pricing` on a `Metrics`
satisfying the dimensional invariant, relative to the pre-call state. -/
theorem apply_pricing_cost_rollup (gr : Str → Str → Option PriceRate)
    (m : Metrics) (w : Warnings) (hdims : dimsComplete m)
    (hnd : (m.by_usage_key.map (fun e => e.1)).Nodup) :
    ∃ m' w', m.apply_pricing gr w = .ok (m', w') ∧
      m'.totals =
        { m.totals with
          cost_usd := totalCost gr m.model_id_map m.by_usage_key } ∧
      (∀ r ts, alookup r m.by_region = some ts →
        alookup r m'.by_region =
          some { ts with
                 cost_usd := totalCostWhere gr m.model_id_map
                   (fun k => decide (k.1 = r)) m.by_usage_key }) ∧
      (∀ i ts, alookup i m.by_identity = some ts →
        alookup i m'.by_identity =
          some { ts with
                 cost_usd := totalCostWhere gr m.model_id_map
                   (fun k => decide (k.2.1 = i)) m.by_usage_key }) ∧
      (∀ mo ts, alookup mo m.by_model = some ts →
        alookup mo m'.by_model =
          some { ts with
                 cost_usd := totalCostWhere gr m.model_id_map
                   (fun k => decide (k.2.2 = mo)) m.by_usage_key }) ∧
      (∀ e ∈ m.by_usage_key,
        alookup e.1 m'.by_usage_key =
          some { e.2 with cost_usd := costOfEntry gr m.model_id_map e } ∧
        (gr ((alookup e.1.2.2 m.model_id_map).getD e.1.2.2) e.1.1 = none →
          costOfEntry gr m.model_id_map e = 0 ∧
          e.1.2.2 ∈ w'.unpriced_models)) := by
  have hdims0 : ∀ e ∈ (zeroedCosts m).by_usage_key,
      (alookup e.1.1 (zeroedCosts m).by_region).isSome = true ∧
      (alookup e.1.2.1 (zeroedCosts m).by_identity).isSome = true ∧
      (alookup e.1.2.2 (zeroedCosts m).by_model).isSome = true := by
    intro e he
    obtain ⟨a, b, c⟩ := hdims e he
    refine ⟨?_, ?_, ?_⟩
    · show (alookup e.1.1 (zeroCosts m.by_region)).isSome = true
      rw [alookup_zeroCosts]
      simpa using a
    · show (alookup e.1.2.1 (zeroCosts m.by_identity)).isSome = true
      rw [alookup_zeroCosts]
      simpa using b
    · show (alookup e.1.2.2 (zeroCosts m.by_model)).isSome = true
      rw [alookup_zeroCosts]
      simpa using c
  obtain ⟨m', w', hrun, hmim, htot, hreg, hid, hmod, hpres, hgran, hsub, hunp⟩ :=
    applyPricingLoop_ok gr (zeroedCosts m).by_usage_key (zeroedCosts m) w hdims0
  refine ⟨m', w', hrun, ?_, ?_, ?_, ?_, ?_⟩
  · rw [htot]
    ext <;> simp [zeroedCosts]
  · intro r ts h
    have h0 : alookup r (zeroedCosts m).by_region =
        some { ts with cost_usd := 0 } := by
      show alookup r (zeroCosts m.by_region) = _
      rw [alookup_zeroCosts, h]
      rfl
    rw [hreg r _ h0]
    refine congrArg some ?_
    ext <;> simp [zeroedCosts]
  · intro i ts h
    have h0 : alookup i (zeroedCosts m).by_identity =
        some { ts with cost_usd := 0 } := by
      show alookup i (zeroCosts m.by_identity) = _
      rw [alookup_zeroCosts, h]
      rfl
    rw [hid i _ h0]
    refine congrArg some ?_
    ext <;> simp [zeroedCosts]
  · intro mo ts h
    have h0 : alookup mo (zeroedCosts m).by_model =
        some { ts with cost_usd := 0 } := by
      show alookup mo (zeroCosts m.by_model) = _
      rw [alookup_zeroCosts, h]
      rfl
    rw [hmod mo _ h0]
    refine congrArg some ?_
    ext <;> simp [zeroedCosts]
  · intro e he
    have hv : alookup e.1 (zeroedCosts m).by_usage_key = some e.2 := by
      show alookup e.1 m.by_usage_key = some e.2
      exact alookup_of_mem_nodup hnd he
    constructor
    · exact hgran hnd e he e.2 hv
    · intro hrate
      constructor
      · unfold costOfEntry
        rw [hrate]
        rfl
      · exact hunp e he hrate

end Models

section Claims

open Assoc Models Pricing Workflow Manifest Snapshot

/-- Claim C6: `get_rate` performs an exact lookup on the scope-preserving
pricing key: a region-specific entry wins, else a `"default"` entry, else
no rate; a pricing key absent from the table always yields no rate, so a
model is never priced using a different key's rate. -/
theorem C6_get_rate_exact_lookup (rates : PriceTable) (model_id region : Str) :
    (∀ model_rates rate,
        alookup (get_pricing_model_key model_id) rates = some model_rates →
        alookup region model_rates = some rate →
        get_rate rates model_id region = some rate) ∧
    (∀ model_rates rate,
        alookup (get_pricing_model_key model_id) rates = some model_rates →
        alookup region model_rates = none →
        alookup (str "default") model_rates = some rate →
        get_rate rates model_id region = some rate) ∧
    (∀ model_rates,
        alookup (get_pricing_model_key model_id) rates = some model_rates →
        alookup region model_rates = none →
        alookup (str "default") model_rates = none →
        get_rate rates model_id region = none) ∧
    (alookup (get_pricing_model_key model_id) rates = none →
        get_rate rates model_id region = none) := by
  refine ⟨?_, ?_, ?_, ?_⟩
  · intro mr r h1 h2
    have hne : mr ≠ [] := by rintro rfl; simp [alookup] at h2
    simp [get_rate, h1, h2, hne]
  · intro mr r h1 h2 h3
    have hne : mr ≠ [] := by rintro rfl; simp [alookup] at h3
    simp [get_rate, h1, h2, h3, hne]
  · intro mr h1 h2 h3
    by_cases hne : mr = [] <;> simp [get_rate, h1, h2, h3, hne]
  · intro h1
    simp [get_rate, h1]

/-- Witness for C6 on a concrete two-region table: region override wins,
`"default"` backs a missing region, and an absent key is unpriced. -/
theorem C6_get_rate_exact_lookup_witness :
    get_rate
      [(str "m1", [(str "us-east-1", { input_per_1k := 1, output_per_1k := 2 }),
                   (str "default", { input_per_1k := 3, output_per_1k := 4 })])]
      (str "m1") (str "us-east-1") =
      some { input_per_1k := 1, output_per_1k := 2 } ∧
    get_rate
      [(str "m1", [(str "us-east-1", { input_per_1k := 1, output_per_1k := 2 }),
                   (str "default", { input_per_1k := 3, output_per_1k := 4 })])]
      (str "m1") (str "eu-west-1") =
      some { input_per_1k := 3, output_per_1k := 4 } ∧
    get_rate
      [(str "m1", [(str "us-east-1", { input_per_1k := 1, output_per_1k := 2 }),
                   (str "default", { input_per_1k := 3, output_per_1k := 4 })])]
      (str "m2") (str "us-east-1") = none := by
  refine ⟨?_, ?_, ?_⟩
  · exact (C6_get_rate_exact_lookup _ _ _).1
      [(str "us-east-1", { input_per_1k := 1, output_per_1k := 2 }),
       (str "default", { input_per_1k := 3, output_per_1k := 4 })]
      { input_per_1k := 1, output_per_1k := 2 } (by decide) (by decide)
  · exact (C6_get_rate_exact_lookup _ _ _).2.1
      [(str "us-east-1", { input_per_1k := 1, output_per_1k := 2 }),
       (str "default", { input_per_1k := 3, output_per_1k := 4 })]
      { input_per_1k := 3, output_per_1k := 4 } (by decide) (by decide) (by decide)
  · exact (C6_get_rate_exact_lookup _ _ _).2.2.2 (by decide)

/-- Claim C7: an object is new iff force-mode is on, or its key is absent
from the manifest's processed map, or the stored etag differs from the
object's etag; re-ingesting an object whose key and etag are unchanged
leaves the metrics aggregate unchanged, while a changed etag causes the
object to be reprocessed. -/
theorem C7_manifest_dedup (force : Bool)
    (processed : List (Str × List (Str × Str))) (obj : S3Object)
    (fetch : Str → List UsageEvent) (m : Metrics) :
    (is_new_object force processed obj = true ↔
      force = true ∨ alookup obj.key processed = none ∨
        (alookup obj.key processed).bind (alookup (str "etag")) ≠
          some obj.etag) ∧
    ((alookup obj.key processed).bind (alookup (str "etag")) = some obj.etag →
      force = false →
      ingest_objects fetch (filter_new_objects force processed [obj]) m = m) ∧
    (∀ stored,
      (alookup obj.key processed).bind (alookup (str "etag")) = some stored →
      stored ≠ obj.etag →
      obj ∈ filter_new_objects force processed [obj]) := by
  refine ⟨?_, ?_, ?_⟩
  · cases hf : force with
    | true => simp [is_new_object]
    | false =>
        cases hl : alookup obj.key processed with
        | none => simp [is_new_object, hl]
        | some meta =>
            by_cases hm : meta = []
            · subst hm
              simp [is_new_object, hl, alookup]
            · simp [is_new_object, hl, hm, Option.bind]
  · intro hstored hf
    subst hf
    obtain ⟨meta, hl, hmeta⟩ : ∃ meta, alookup obj.key processed = some meta ∧
        alookup (str "etag") meta = some obj.etag := by
      cases hl : alookup obj.key processed with
      | none => simp [hl] at hstored
      | some meta => exact ⟨meta, rfl, by simpa [hl] using hstored⟩
    have hmne : meta ≠ [] := by rintro rfl; simp [alookup] at hmeta
    have hnew : is_new_object false processed obj = false := by
      simp [is_new_object, hl, hmeta, hmne]
    simp [filter_new_objects, ingest_objects, hnew]
  · intro stored hstored hne
    obtain ⟨meta, hl, hmeta⟩ : ∃ meta, alookup obj.key processed = some meta ∧
        alookup (str "etag") meta = some stored := by
      cases hl : alookup obj.key processed with
      | none => simp [hl] at hstored
      | some meta => exact ⟨meta, rfl, by simpa [hl] using hstored⟩
    have hnew : is_new_object force processed obj = true := by
      have : ¬(alookup (str "etag") meta = some obj.etag) := by
        rw [hmeta]
        simp [hne]
      simp [is_new_object, hl, this]
    simp [filter_new_objects, hnew]

/-- Witness for C7: with a manifest recording etag `e1` for key `k`, the
unchanged object is skipped (metrics untouched) and a changed etag `e2`
is reprocessed. -/
theorem C7_manifest_dedup_witness :
    ingest_objects
      (fun _ => [{ region := str "r", identity := str "i", model_id := str "mo",
                   input_tokens := 3, output_tokens := 4,
                   original_model_id := none }])
      (filter_new_objects false [(str "k", [(str "etag", str "e1")])]
        [⟨str "k", str "e1"⟩]) {} = ({} : Metrics) ∧
    (⟨str "k", str "e2"⟩ : S3Object) ∈
      filter_new_objects false [(str "k", [(str "etag", str "e1")])]
        [⟨str "k", str "e2"⟩] := by
  constructor
  · exact (C7_manifest_dedup false _ _ _ _).2.1 (by decide) rfl
  · exact (C7_manifest_dedup false _ _
      (fun _ => []) {}).2.2 (str "e1") (by decide) (by decide)

/-- Claim C4: starting from an empty `Metrics`, any sequence of
`add_usage` calls keeps `totals.total_tokens` equal to the summed
region-map and identity-map totals; the verification step recomputes
both sums, records a mismatch as a named warning (never aborting, and
never discarding prior warnings), and records nothing when the sums
agree. -/
theorem C4_totals_match_dimension_sums (calls : List UsageCall) (m : Metrics)
    (w : Warnings) :
    ((applyUsageCalls calls {}).totals.total_tokens =
        (sum_stats (applyUsageCalls calls {}).by_region).total_tokens ∧
      (applyUsageCalls calls {}).totals.total_tokens =
        (sum_stats (applyUsageCalls calls {}).by_identity).total_tokens ∧
      verify_results (applyUsageCalls calls {}) w = w) ∧
    (stats_equal m.totals (sum_stats m.by_region) = false →
      str "by_region_mismatch" ∈ (verify_results m w).verification_errors) ∧
    (stats_equal m.totals (sum_stats m.by_identity) = false →
      str "by_identity_mismatch" ∈ (verify_results m w).verification_errors) ∧
    w.verification_errors ⊆ (verify_results m w).verification_errors := by
  obtain ⟨h1, h2⟩ := applyUsageCalls_sums calls
  refine ⟨⟨by rw [← h1], by rw [← h2], ?_⟩, ?_, ?_, ?_⟩
  · simp [verify_results, ← h1, ← h2, stats_equal_self]
  · intro h
    by_cases h' : stats_equal m.totals (sum_stats m.by_identity) = true <;>
      simp [verify_results, h, h']
  · intro h
    by_cases h' : stats_equal m.totals (sum_stats m.by_region) = true <;>
      simp [verify_results, h, h']
  · intro x hx
    by_cases ha : stats_equal m.totals (sum_stats m.by_region) = true <;>
      by_cases hb : stats_equal m.totals (sum_stats m.by_identity) = true <;>
      simp [verify_results, ha, hb, Finset.mem_insert, hx]

/-- Witness for C4: a two-call sequence on one identity totals 112
tokens with matching dimensional sums, and a hand-built inconsistent
`Metrics` (nonzero totals, empty maps) is flagged as a region mismatch. -/
theorem C4_totals_match_dimension_sums_witness :
    (applyUsageCalls
        [{ region := str "r", identity := str "i", model_id := str "mo",
           input_tokens := 5, output_tokens := 7, cost_usd := 0 },
         { region := str "r", identity := str "i", model_id := str "mo",
           input_tokens := 60, output_tokens := 40, cost_usd := 0 }] {}).totals.total_tokens =
      (sum_stats (applyUsageCalls
        [{ region := str "r", identity := str "i", model_id := str "mo",
           input_tokens := 5, output_tokens := 7, cost_usd := 0 },
         { region := str "r", identity := str "i", model_id := str "mo",
           input_tokens := 60, output_tokens := 40, cost_usd := 0 }] {}).by_region).total_tokens ∧
    (applyUsageCalls
        [{ region := str "r", identity := str "i", model_id := str "mo",
           input_tokens := 5, output_tokens := 7, cost_usd := 0 },
         { region := str "r", identity := str "i", model_id := str "mo",
           input_tokens := 60, output_tokens := 40, cost_usd := 0 }] {}).totals.total_tokens = 112 ∧
    str "by_region_mismatch" ∈
      (verify_results { totals := { total_tokens := 5 } } {}).verification_errors := by
  refine ⟨(C4_totals_match_dimension_sums _ { totals := { total_tokens := 5 } } {}).1.1,
    by decide, ?_⟩
  exact (C4_totals_match_dimension_sums [] { totals := { total_tokens := 5 } } {}).2.1
    (by decide)

/-- Counterexample to claim C1: on the report day starting at epoch 0,
with wall-clock time 10:00 (36000 s), the last emitted hourly prefix is
hour 23:00 (82800 s), not `min(report-day end hour, current hour) =
36000` — prefixes for hours later than "now" are emitted. -/
theorem C1_counterexample_last_prefix :
    (plan_scan false {} 0 86400 36000).scan_hours.getLast? = some 82800 ∧
    min (floorHour (86400 - 1)) (floorHour 36000) = 36000 ∧
    (82800 : Int) ≠ 36000 := by
  refine ⟨by decide, by decide, by decide⟩

/-- Claim C1 (amended): whenever prefixes are emitted, the persisted
checkpoint `scan_end_datehour` is `min(report-day end hour, current
wall-clock hour)` — so the checkpoint is never advanced past the current
hour — while the emitted prefix list always runs to the report-day end
hour regardless of the current time. -/
theorem C1_scan_end_capped (force : Bool) (manifest : ManifestState)
    (report_start report_end now : Int)
    (hne : (plan_scan force manifest report_start report_end now).scan_hours ≠ []) :
    (plan_scan force manifest report_start report_end now).scan_end_datehour =
      some (Datehour.formatDatehour
        (min (floorHour (report_end - 1)) (floorHour now))) ∧
    min (floorHour (report_end - 1)) (floorHour now) ≤ floorHour now ∧
    (plan_scan force manifest report_start report_end now).scan_hours.getLast? =
      some (floorHour (report_end - 1)) := by
  have hs : (plan_scan force manifest report_start report_end now).scan_hours =
      hourRange (floorHour (scan_start force manifest report_start))
        (floorHour (report_end - 1)) := rfl
  have hle : floorHour (scan_start force manifest report_start) ≤
      floorHour (report_end - 1) := (hourRange_ne_nil_iff _ _).mp (hs ▸ hne)
  refine ⟨?_, min_le_right _ _, ?_⟩
  · have hproj :
        (plan_scan force manifest report_start report_end now).scan_end_datehour =
        if (plan_scan force manifest report_start report_end now).scan_hours ≠ []
        then some (Datehour.formatDatehour
          (min (floorHour (report_end - 1)) (floorHour now)))
        else none := rfl
    rw [hproj, if_pos hne]
  · rw [hs]
    exact hourRange_getLast _ _ hle
      (dvd_sub (floorHour_dvd _) (floorHour_dvd _))

/-- Witness for C1 (amended) at the counterexample input: checkpoint
capped to the 10:00 hour while prefixes run to 23:00. -/
theorem C1_scan_end_capped_witness :
    (plan_scan false {} 0 86400 36000).scan_end_datehour =
      some (Datehour.formatDatehour
        (min (floorHour (86400 - 1)) (floorHour 36000))) ∧
    min (floorHour (86400 - 1)) (floorHour 36000) ≤ floorHour 36000 ∧
    (plan_scan false {} 0 86400 36000).scan_hours.getLast? =
      some (floorHour (86400 - 1)) :=
  C1_scan_end_capped false {} 0 86400 36000 (by decide)

/-- Claim C8: the scan start is the report-day start — in particular
under force mode and for an absent, empty or unparseable checkpoint —
unless force is off and a truthy, parseable checkpoint exists, in which
case it becomes `max(report-day start, checkpoint - lookback hours)`
rounded down to the hour; an empty computed range emits no prefixes and
leaves the manifest checkpoint untouched. -/
theorem C8_scan_start_and_empty_range (force : Bool) (manifest : ManifestState)
    (report_start report_end now : Int) :
    (∀ cp t, manifest.last_datehour = some cp → cp ≠ [] →
      Datehour.parseDatehour cp = some t → force = false →
      (plan_scan force manifest report_start report_end now).scan_hours =
        hourRange
          (floorHour (max report_start (t - manifest.lookback_hours * 3600)))
          (floorHour (report_end - 1))) ∧
    (force = true ∨ manifest.last_datehour = none ∨
        manifest.last_datehour = some [] ∨
        (∀ cp, manifest.last_datehour = some cp →
          Datehour.parseDatehour cp = none) →
      (plan_scan force manifest report_start report_end now).scan_hours =
        hourRange (floorHour report_start) (floorHour (report_end - 1))) ∧
    ((plan_scan force manifest report_start report_end now).scan_hours = [] →
      (plan_scan force manifest report_start report_end now).scan_end_datehour =
        none ∧
      ∀ m' : ManifestState,
        update_last_datehour m'
          (plan_scan force manifest report_start report_end now).scan_end_datehour =
          m') := by
  refine ⟨?_, ?_, ?_⟩
  · intro cp t hcp hcpne hparse hf
    subst hf
    have : scan_start false manifest report_start =
        max report_start (t - manifest.lookback_hours * 3600) := by
      simp [scan_start, StrOps.truthy, hcp, hcpne, hparse]
    show hourRange (floorHour (scan_start false manifest report_start)) _ = _
    rw [this]
  · intro h
    have : scan_start force manifest report_start = report_start := by
      rcases h with h | h | h | h
      · simp [scan_start, h]
      · simp [scan_start, StrOps.truthy, h]
      · simp [scan_start, StrOps.truthy, h]
      · cases hcp : manifest.last_datehour with
        | none => simp [scan_start, StrOps.truthy, hcp]
        | some cp => simp [scan_start, hcp, h cp hcp]
    show hourRange (floorHour (scan_start force manifest report_start)) _ = _
    rw [this]
  · intro h
    have hproj :
        (plan_scan force manifest report_start report_end now).scan_end_datehour =
        if (plan_scan force manifest report_start report_end now).scan_hours ≠ []
        then some (Datehour.formatDatehour
          (min (floorHour (report_end - 1)) (floorHour now)))
        else none := rfl
    have hnone :
        (plan_scan force manifest report_start report_end now).scan_end_datehour =
          none := by
      rw [hproj, if_neg (by simp [h])]
    exact ⟨hnone, fun m' => by rw [hnone]; rfl⟩

/-- Witness for C8: a checkpoint of `2026-02-01T05` with a 6-hour
lookback on report day 2026-02-01 starts the scan at the report-day
start (the lookback reaches into the previous day); a checkpoint of
`202-02-01T05`, whose three-digit year `strptime`'s `%Y` rejects,
leaves the scan at the report-day start; and the first checkpoint
against report day 1970-01-01 yields an empty range, no
`scan_end_datehour`, and an unchanged manifest. -/
theorem C8_scan_start_and_empty_range_witness :
    (plan_scan false
        { last_datehour := some (str "2026-02-01T05"), lookback_hours := 6 }
        (20485 * 86400) (20486 * 86400) (20485 * 86400 + 30600)).scan_hours =
      hourRange
        (floorHour (max (20485 * 86400)
          (20485 * 86400 + 5 * 3600 - 6 * 3600)))
        (floorHour (20486 * 86400 - 1)) ∧
    (plan_scan false
        { last_datehour := some (str "202-02-01T05"), lookback_hours := 6 }
        (20485 * 86400) (20486 * 86400) (20485 * 86400 + 30600)).scan_hours =
      hourRange (floorHour (20485 * 86400)) (floorHour (20486 * 86400 - 1)) ∧
    (plan_scan false
        { last_datehour := some (str "2026-02-01T05"), lookback_hours := 6 }
        0 86400 36000).scan_end_datehour = none := by
  refine ⟨?_, ?_, ?_⟩
  · exact (C8_scan_start_and_empty_range false _ _ _ _).1 (str "2026-02-01T05")
      (20485 * 86400 + 5 * 3600) rfl (by decide) (by decide) rfl
  · exact (C8_scan_start_and_empty_range false _ _ _ _).2.1
      (Or.inr (Or.inr (Or.inr (fun cp hcp => by
        injection hcp with h
        rw [← h]
        decide))))
  · exact ((C8_scan_start_and_empty_range false _ _ _ _).2.2 (by decide)).1

/-- Counterexample to claim C3: `merge` adds the incoming operand's
`input + output` to `total_tokens`, not its `total_tokens`, so for a
`Metrics` whose stored total is not `input + output` — obtainable by
deserializing a snapshot — merging it into an empty `Metrics` is not
commutative on `total_tokens`. -/
theorem C3_counterexample_merge_totals :
    ((Snapshot.load_metrics_from_snapshot
        { totals := some { total_tokens := some 1 } }).merge {}).totals.total_tokens = 1 ∧
    (({} : Metrics).merge
        (Snapshot.load_metrics_from_snapshot
          { totals := some { total_tokens := some 1 } })).totals.total_tokens = 0 ∧
    ((Snapshot.load_metrics_from_snapshot
        { totals := some { total_tokens := some 1 } }).merge {}).totals.total_tokens ≠
      (({} : Metrics).merge
        (Snapshot.load_metrics_from_snapshot
          { totals := some { total_tokens := some 1 } })).totals.total_tokens := by
  refine ⟨by decide, by decide, by decide⟩

/-- Claim C3 (amended): for `Metrics` operands whose `totals` satisfy
`total_tokens = input_tokens + output_tokens` (as every value built by
`add_usage`/`merge` from empty does), `merge` is commutative on the raw
token counts of `totals`; merging an empty operand is a no-op; the
incoming operand's cost is discarded; and merging a snapshot carrying
560,183 total tokens into a run holding 90,000 newly ingested tokens
yields exactly 650,183. -/
theorem C3_merge_commutes_on_tokens (a b : Metrics)
    (ha : a.totals.total_tokens = a.totals.input_tokens + a.totals.output_tokens)
    (hb : b.totals.total_tokens = b.totals.input_tokens + b.totals.output_tokens) :
    ((a.merge b).totals.input_tokens = (b.merge a).totals.input_tokens ∧
      (a.merge b).totals.output_tokens = (b.merge a).totals.output_tokens ∧
      (a.merge b).totals.total_tokens = (b.merge a).totals.total_tokens) ∧
    a.merge {} = a ∧
    (a.merge b).totals.cost_usd = a.totals.cost_usd ∧
    ((Metrics.add_usage {} (str "r") (str "i") (str "mo") 50000 40000 0
        none).merge
      (Snapshot.load_metrics_from_snapshot
        { totals := some { input_tokens := some 500000,
                           output_tokens := some 60183,
                           total_tokens := some 560183 } })).totals.total_tokens =
      650183 := by
  refine ⟨⟨?_, ?_, ?_⟩, ?_, ?_, by decide⟩
  · simp [Metrics.merge, TokenStats.add]
    ring
  · simp [Metrics.merge, TokenStats.add]
    ring
  · simp [Metrics.merge, TokenStats.add]
    rw [ha, hb]
    ring
  · cases a with
    | mk t br bi bm bu mim =>
        simp [Metrics.merge, TokenStats.add_zero_zero, mergeStatsMap_nil]
  · simp [Metrics.merge, TokenStats.add]

/-- Witness for C3 (amended) on two concrete aggregates built by
`add_usage`. -/
theorem C3_merge_commutes_on_tokens_witness :
    ((Metrics.add_usage {} (str "r") (str "i") (str "mo") 5 7 0 none).merge
        (Metrics.add_usage {} (str "r2") (str "i2") (str "mo2") 60 40 0
          none)).totals.total_tokens =
      ((Metrics.add_usage {} (str "r2") (str "i2") (str "mo2") 60 40 0
          none).merge
        (Metrics.add_usage {} (str "r") (str "i") (str "mo") 5 7 0
          none)).totals.total_tokens :=
  ((C3_merge_commutes_on_tokens
      (Metrics.add_usage {} (str "r") (str "i") (str "mo") 5 7 0 none)
      (Metrics.add_usage {} (str "r2") (str "i2") (str "mo2") 60 40 0 none)
      (by decide) (by decide)).1).2.2

/-- Claim C9: token extraction tries the primary structured fields, then
falls back to a `usage` sub-object of the response body under alternate
spellings; if both tiers yield nothing the counts default to zero; the
`missing_token_counts` warning increments when both counts are zero, and
any (truthy) use of the fallback tier sets the fallback flag, which
alone triggers the warning even when the numbers are nonzero. -/
theorem C9_token_extraction (r : BedrockParser.TokenRecord) (w : Nat) :
    (∀ i o, r.inputTokenCount = some i → r.outputTokenCount = some o →
      BedrockParser.extract_token_counts r = (i, o, false)) ∧
    (∀ u, BedrockParser.extractUsage r.outputBodyJson = some u →
      u.truthy = true → r.inputTokenCount = none →
      (BedrockParser.extract_token_counts r).2.2 = true ∧
      (BedrockParser.extract_token_counts r).1 =
        BedrockParser.orZero (BedrockParser.pyOr u.input_tokens
          (BedrockParser.pyOr u.inputTokens u.input_token_count))) ∧
    (∀ u, BedrockParser.extractUsage r.outputBodyJson = some u →
      u.truthy = true → r.outputTokenCount = none →
      (BedrockParser.extract_token_counts r).2.2 = true ∧
      (BedrockParser.extract_token_counts r).2.1 =
        BedrockParser.orZero (BedrockParser.pyOr u.output_tokens
          (BedrockParser.pyOr u.outputTokens u.output_token_count))) ∧
    (r.inputTokenCount = none → r.outputTokenCount = none →
      (BedrockParser.extractUsage r.outputBodyJson = none ∨
        ∃ u, BedrockParser.extractUsage r.outputBodyJson = some u ∧
          u.truthy = false) →
      BedrockParser.extract_token_counts r = (0, 0, false)) ∧
    ((BedrockParser.extract_token_counts r).1 = 0 →
      (BedrockParser.extract_token_counts r).2.1 = 0 →
      record_missing_tokens (BedrockParser.extract_token_counts r).1
        (BedrockParser.extract_token_counts r).2.1
        (BedrockParser.extract_token_counts r).2.2 w = w + 1) ∧
    ((BedrockParser.extract_token_counts r).2.2 = true →
      record_missing_tokens (BedrockParser.extract_token_counts r).1
        (BedrockParser.extract_token_counts r).2.1
        (BedrockParser.extract_token_counts r).2.2 w = w + 1) := by
  refine ⟨?_, ?_, ?_, ?_, ?_, ?_⟩
  · intro i o h1 h2
    simp [BedrockParser.extract_token_counts, h1, h2, BedrockParser.orZero]
  · intro u hu ht h1
    simp [BedrockParser.extract_token_counts, h1, hu, ht]
  · intro u hu ht h2
    simp [BedrockParser.extract_token_counts, h2, hu, ht]
  · intro h1 h2 h3
    rcases h3 with h3 | ⟨u, hu, ht⟩
    · simp [BedrockParser.extract_token_counts, h1, h2, h3,
        BedrockParser.orZero]
    · simp [BedrockParser.extract_token_counts, h1, h2, hu, ht,
        BedrockParser.orZero]
  · intro h1 h2
    simp [record_missing_tokens, h1, h2]
  · intro h
    simp [record_missing_tokens, h]

/-- Witness for C9: a record with no structured input count but a
response-body `usage` object yields the fallback value, is flagged as
fallback-used, and increments the warning counter despite nonzero
counts. -/
theorem C9_token_extraction_witness :
    (BedrockParser.extract_token_counts
      { inputTokenCount := none, outputTokenCount := some 5,
        outputBodyJson := .obj (some { input_tokens := some 9 }) }).2.2 = true ∧
    (BedrockParser.extract_token_counts
      { inputTokenCount := none, outputTokenCount := some 5,
        outputBodyJson := .obj (some { input_tokens := some 9 }) }).1 = 9 ∧
    record_missing_tokens
      (BedrockParser.extract_token_counts
        { inputTokenCount := none, outputTokenCount := some 5,
          outputBodyJson := .obj (some { input_tokens := some 9 }) }).1
      (BedrockParser.extract_token_counts
        { inputTokenCount := none, outputTokenCount := some 5,
          outputBodyJson := .obj (some { input_tokens := some 9 }) }).2.1
      (BedrockParser.extract_token_counts
        { inputTokenCount := none, outputTokenCount := some 5,
          outputBodyJson := .obj (some { input_tokens := some 9 }) }).2.2
      0 = 1 := by
  have h := C9_token_extraction
    { inputTokenCount := none, outputTokenCount := some 5,
      outputBodyJson := .obj (some { input_tokens := some 9 }) } 0
  obtain ⟨hf, hv⟩ := h.2.1 { input_tokens := some 9 } rfl (by decide) rfl
  exact ⟨hf, by rw [hv]; decide, h.2.2.2.2.2 hf⟩

/-- Claim C2: `apply_pricing` zeroes all dimensional costs and then, for
each granular triple, looks up a rate under the original model id (via
the normalized→original map) and the triple's region; an unresolved rate
adds the normalized model to the unpriced set and leaves that triple's
cost 0; a resolved rate prices the triple as
`(input/1000)*input_per_1k + (output/1000)*output_per_1k`; afterwards
`totals` and every dimensional entry carry exactly the sum of the costs
of the triples projecting onto them (token counts untouched). The
concrete `addUsage(1000, 500)` example prices at 0.0105. -/
theorem C2_apply_pricing_costs (gr : Str → Str → Option PriceRate)
    (m : Metrics) (w : Warnings) (hdims : dimsComplete m)
    (hnd : (m.by_usage_key.map (fun e => e.1)).Nodup) :
    (∃ m' w', m.apply_pricing gr w = .ok (m', w') ∧
      m'.totals =
        { m.totals with
          cost_usd := totalCost gr m.model_id_map m.by_usage_key } ∧
      (∀ r ts, alookup r m.by_region = some ts →
        alookup r m'.by_region =
          some { ts with
                 cost_usd := totalCostWhere gr m.model_id_map
                   (fun k => decide (k.1 = r)) m.by_usage_key }) ∧
      (∀ i ts, alookup i m.by_identity = some ts →
        alookup i m'.by_identity =
          some { ts with
                 cost_usd := totalCostWhere gr m.model_id_map
                   (fun k => decide (k.2.1 = i)) m.by_usage_key }) ∧
      (∀ mo ts, alookup mo m.by_model = some ts →
        alookup mo m'.by_model =
          some { ts with
                 cost_usd := totalCostWhere gr m.model_id_map
                   (fun k => decide (k.2.2 = mo)) m.by_usage_key }) ∧
      (∀ e ∈ m.by_usage_key,
        alookup e.1 m'.by_usage_key =
          some { e.2 with cost_usd := costOfEntry gr m.model_id_map e } ∧
        (gr ((alookup e.1.2.2 m.model_id_map).getD e.1.2.2) e.1.1 = none →
          costOfEntry gr m.model_id_map e = 0 ∧
          e.1.2.2 ∈ w'.unpriced_models))) ∧
    ((Metrics.add_usage {} (str "us-east-2") (str "arn:test") (str "m")
        1000 500 0 (some (str "m"))).apply_pricing
        (fun _ _ => some { input_per_1k := 0.003, output_per_1k := 0.015 })
        {}).toOption.map
      (fun p => (alookup (str "us-east-2", str "arn:test", str "m")
        p.1.by_usage_key, p.1.totals.cost_usd)) =
      some (some { input_tokens := 1000, output_tokens := 500,
                   total_tokens := 1500, cost_usd := 0.0105 }, 0.0105) := by
  refine ⟨apply_pricing_cost_rollup gr m w hdims hnd, ?_⟩
  obtain ⟨m', w', hok, htot, hreg, hid, hmod, hgran⟩ :=
    apply_pricing_cost_rollup
      (fun _ _ => some { input_per_1k := 0.003, output_per_1k := 0.015 })
      (Metrics.add_usage {} (str "us-east-2") (str "arn:test") (str "m")
        1000 500 0 (some (str "m")))
      {} (by decide) (by decide)
  obtain ⟨hgv, -⟩ := hgran ((str "us-east-2", str "arn:test", str "m"),
      TokenStats.add {} 1000 500 0) (List.mem_singleton.mpr rfl)
  have hbu : (Metrics.add_usage {} (str "us-east-2") (str "arn:test") (str "m")
      1000 500 0 (some (str "m"))).by_usage_key =
      [((str "us-east-2", str "arn:test", str "m"),
        TokenStats.add {} 1000 500 0)] := rfl
  have hmimx : (Metrics.add_usage {} (str "us-east-2") (str "arn:test")
      (str "m") 1000 500 0 (some (str "m"))).model_id_map =
      [(str "m", str "m")] := rfl
  have hcost : costOfEntry
      (fun _ _ => some { input_per_1k := 0.003, output_per_1k := 0.015 })
      [(str "m", str "m")]
      ((str "us-east-2", str "arn:test", str "m"),
        TokenStats.add {} 1000 500 0) = 0.0105 := by
    norm_num [costOfEntry, compute_cost, TokenStats.add, alookup]
  rw [hok]
  show some ((fun p : Metrics × Warnings =>
    (alookup (str "us-east-2", str "arn:test", str "m") p.1.by_usage_key,
      p.1.totals.cost_usd)) (m', w')) = _
  simp only []
  rw [hmimx] at hgv
  rw [hgv, htot]
  refine congrArg some (Prod.ext ?_ ?_)
  · rw [hcost]
    refine congrArg some ?_
    ext <;> norm_num [TokenStats.add]
  · dsimp only
    rw [hmimx, hbu]
    simp [totalCost, hcost]

/-- Witness for C2 on the spec's concrete example. -/
theorem C2_apply_pricing_costs_witness :
    ((Metrics.add_usage {} (str "us-east-2") (str "arn:test") (str "m")
        1000 500 0 (some (str "m"))).apply_pricing
        (fun _ _ => some { input_per_1k := 0.003, output_per_1k := 0.015 })
        {}).toOption.map
      (fun p => (alookup (str "us-east-2", str "arn:test", str "m")
        p.1.by_usage_key, p.1.totals.cost_usd)) =
      some (some { input_tokens := 1000, output_tokens := 500,
                   total_tokens := 1500, cost_usd := 0.0105 }, 0.0105) :=
  (C2_apply_pricing_costs
    (fun _ _ => some { input_per_1k := 0.003, output_per_1k := 0.015 })
    (Metrics.add_usage {} (str "us-east-2") (str "arn:test") (str "m")
      1000 500 0 (some (str "m")))
    {} (by decide) (by decide)).2

/-- Claim C10 (implicit): `apply_pricing` indexes the dimensional maps
with the components of each granular key, unguarded; it completes
without a `KeyError` exactly when every granular key's region, identity
and model are present in the corresponding maps — an invariant
`add_usage` and `merge` maintain, but which a `Metrics` deserialized
from a snapshot whose granular list names an absent region violates,
making `apply_pricing` fail instead of producing a report. -/
theorem C10_apply_pricing_dims_invariant (gr : Str → Str → Option PriceRate)
    (m other : Metrics) (w : Warnings) (region identity model_id : Str)
    (input_tokens output_tokens : Int) (cost_usd : ℚ) (orig : Option Str) :
    ((∃ mw', m.apply_pricing gr w = .ok mw') ↔ dimsComplete m) ∧
    (dimsComplete m →
      dimsComplete (m.add_usage region identity model_id input_tokens
        output_tokens cost_usd orig)) ∧
    (dimsComplete m → dimsComplete other → dimsComplete (m.merge other)) ∧
    (Snapshot.load_metrics_from_snapshot
        { by_usage_key := .fromList
            [some { region := some (str "r"), identity := some (str "i"),
                    model_id := some (str "mo") }] }).apply_pricing gr w =
      .error (str "KeyError") := by
  have hzero_region : ∀ x, alookup x (zeroedCosts m).by_region =
      (alookup x m.by_region).map (fun v => { v with cost_usd := 0 }) :=
    fun x => alookup_zeroCosts x m.by_region
  have hzero_identity : ∀ x, alookup x (zeroedCosts m).by_identity =
      (alookup x m.by_identity).map (fun v => { v with cost_usd := 0 }) :=
    fun x => alookup_zeroCosts x m.by_identity
  have hzero_model : ∀ x, alookup x (zeroedCosts m).by_model =
      (alookup x m.by_model).map (fun v => { v with cost_usd := 0 }) :=
    fun x => alookup_zeroCosts x m.by_model
  refine ⟨⟨?_, ?_⟩, ?_, ?_, ?_⟩
  · rintro ⟨mw', hok⟩
    by_contra hnd
    unfold dimsComplete at hnd
    obtain ⟨e, hne⟩ := not_forall.mp hnd
    obtain ⟨he, hnp⟩ := Classical.not_imp.mp hne
    have hb' : alookup e.1.1 m.by_region = none ∨
        alookup e.1.2.1 m.by_identity = none ∨
        alookup e.1.2.2 m.by_model = none := by
      by_contra hno
      push_neg at hno
      exact hnp ⟨Option.ne_none_iff_isSome.mp hno.1,
        Option.ne_none_iff_isSome.mp hno.2.1,
        Option.ne_none_iff_isSome.mp hno.2.2⟩
    have hb0 : alookup e.1.1 (zeroedCosts m).by_region = none ∨
        alookup e.1.2.1 (zeroedCosts m).by_identity = none ∨
        alookup e.1.2.2 (zeroedCosts m).by_model = none := by
      rcases hb' with hb' | hb' | hb'
      · exact Or.inl (by rw [hzero_region, hb']; rfl)
      · exact Or.inr (Or.inl (by rw [hzero_identity, hb']; rfl))
      · exact Or.inr (Or.inr (by rw [hzero_model, hb']; rfl))
    have herr := applyPricingLoop_error gr (zeroedCosts m).by_usage_key
      (zeroedCosts m) w ⟨e, he, hb0⟩
    have hok' : applyPricingLoop gr (zeroedCosts m).by_usage_key
        (zeroedCosts m, w) = .ok mw' := hok
    rw [herr] at hok'
    exact Except.noConfusion hok'
  · intro hdims
    have hdims0 : ∀ e ∈ (zeroedCosts m).by_usage_key,
        (alookup e.1.1 (zeroedCosts m).by_region).isSome = true ∧
        (alookup e.1.2.1 (zeroedCosts m).by_identity).isSome = true ∧
        (alookup e.1.2.2 (zeroedCosts m).by_model).isSome = true := by
      intro e he
      obtain ⟨a, b, c⟩ := hdims e he
      refine ⟨?_, ?_, ?_⟩
      · rw [hzero_region]; simpa using a
      · rw [hzero_identity]; simpa using b
      · rw [hzero_model]; simpa using c
    obtain ⟨m', w', hrun, -⟩ :=
      applyPricingLoop_ok gr (zeroedCosts m).by_usage_key (zeroedCosts m) w
        hdims0
    exact ⟨(m', w'), hrun⟩
  · intro h e he
    have he' : e ∈ upsert (region, identity, model_id)
        (·.add input_tokens output_tokens 0) {} m.by_usage_key := he
    rcases mem_upsert _ _ _ _ _ he' with hk | hmem
    · obtain ⟨h1', h2', h3'⟩ : e.1.1 = region ∧ e.1.2.1 = identity ∧
          e.1.2.2 = model_id := by
        rw [hk]
        exact ⟨rfl, rfl, rfl⟩
      refine ⟨?_, ?_, ?_⟩
      · rw [h1']
        show (alookup region (upsert region
          (·.add input_tokens output_tokens cost_usd) {} m.by_region)).isSome = true
        rw [alookup_upsert_self]
        rfl
      · rw [h2']
        show (alookup identity (upsert identity
          (·.add input_tokens output_tokens cost_usd) {} m.by_identity)).isSome = true
        rw [alookup_upsert_self]
        rfl
      · rw [h3']
        show (alookup model_id (upsert model_id
          (·.add input_tokens output_tokens cost_usd) {} m.by_model)).isSome = true
        rw [alookup_upsert_self]
        rfl
    · obtain ⟨a, b, c⟩ := h e hmem
      exact ⟨alookup_upsert_isSome _ _ _ _ _ a,
        alookup_upsert_isSome _ _ _ _ _ b,
        alookup_upsert_isSome _ _ _ _ _ c⟩
  · intro h1 h2 e he
    have hmergeSome : ∀ (dst src : List (Str × TokenStats)) x,
        (alookup x dst).isSome = true ∨ (alookup x src).isSome = true →
        (alookup x (mergeStatsMap dst src)).isSome = true := by
      intro dst src x hx
      rw [alookup_isSome_iff_mem, mem_map_fst_mergeStatsMap]
      rcases hx with hx | hx
      · exact Or.inl ((alookup_isSome_iff_mem _ _).mp hx)
      · exact Or.inr ((alookup_isSome_iff_mem _ _).mp hx)
    have hk : e.1 ∈ (mergeStatsMap m.by_usage_key other.by_usage_key).map
        Prod.fst := List.mem_map_of_mem Prod.fst he
    rw [mem_map_fst_mergeStatsMap] at hk
    rcases hk with hk | hk
    · obtain ⟨v, hv⟩ := exists_value_of_mem_map_fst hk
      obtain ⟨a, b, c⟩ := h1 (e.1, v) hv
      exact ⟨hmergeSome _ _ _ (Or.inl a), hmergeSome _ _ _ (Or.inl b),
        hmergeSome _ _ _ (Or.inl c)⟩
    · obtain ⟨v, hv⟩ := exists_value_of_mem_map_fst hk
      obtain ⟨a, b, c⟩ := h2 (e.1, v) hv
      exact ⟨hmergeSome _ _ _ (Or.inr a), hmergeSome _ _ _ (Or.inr b),
        hmergeSome _ _ _ (Or.inr c)⟩
  · exact applyPricingLoop_error gr _ _ w
      ⟨((str "r", str "i", str "mo"), {}), by decide, Or.inl (by decide)⟩

/-- Witness for C10: one `add_usage` call from empty yields a
dimensionally complete aggregate on which `apply_pricing` succeeds. -/
theorem C10_apply_pricing_dims_invariant_witness :
    dimsComplete (Metrics.add_usage {} (str "r") (str "i") (str "mo")
      1 2 0 none) ∧
    (∃ mw', (Metrics.add_usage {} (str "r") (str "i") (str "mo") 1 2 0
        none).apply_pricing (fun _ _ => none) {} = .ok mw') := by
  constructor
  · exact (C10_apply_pricing_dims_invariant (fun _ _ => none) ({} : Metrics)
      {} {} (str "r") (str "i") (str "mo") 1 2 0 none).2.1 (by decide)
  · exact (C10_apply_pricing_dims_invariant (fun _ _ => none)
      (Metrics.add_usage {} (str "r") (str "i") (str "mo") 1 2 0 none)
      {} {} (str "r") (str "i") (str "mo") 1 2 0 none).1.mpr (by decide)

/-- Claim C5: normalization of an inference-profile identifier preserves
the scope marker and strips the trailing version suffix; two identifiers
differing only by scope marker have different normalized keys and
different pricing keys, and a price table keyed by scope-preserving keys
resolves them to different rates. -/
theorem C5_scope_preserved_keys_differ (sc1 sc2 reg acct rest : Str)
    (h1 : sc1 ∈ BedrockParser.scopeMarkers)
    (h2 : sc2 ∈ BedrockParser.scopeMarkers) (hne : sc1 ≠ sc2)
    (hreg : reg ≠ []) (hregc : ':' ∉ reg) (hregs : '/' ∉ reg)
    (hacct : acct ≠ []) (hacctc : ':' ∉ acct) (haccts : '/' ∉ acct)
    (hrest : rest ≠ []) (hrestn : '\n' ∉ rest) :
    (BedrockParser.normalize_model_id
        (BedrockParser.profileArn sc1 reg acct rest) =
      sc1 ++ '.' :: BedrockParser.stripVersionSuffix rest) ∧
    BedrockParser.normalize_model_id
        (BedrockParser.profileArn sc1 reg acct rest) ≠
      BedrockParser.normalize_model_id
        (BedrockParser.profileArn sc2 reg acct rest) ∧
    get_pricing_model_key (BedrockParser.profileArn sc1 reg acct rest) ≠
      get_pricing_model_key (BedrockParser.profileArn sc2 reg acct rest) ∧
    (get_rate
        [(str "us.anthropic.claude-opus-4-5-20251101-v1",
          [(str "default", { input_per_1k := 1, output_per_1k := 1 })]),
         (str "global.anthropic.claude-opus-4-5-20251101-v1",
          [(str "default", { input_per_1k := 2, output_per_1k := 2 })])]
        (str "arn:aws:bedrock:us-east-2:123:inference-profile/us.anthropic.claude-opus-4-5-20251101-v1:0")
        (str "us-east-2") =
        some { input_per_1k := 1, output_per_1k := 1 } ∧
      get_rate
        [(str "us.anthropic.claude-opus-4-5-20251101-v1",
          [(str "default", { input_per_1k := 1, output_per_1k := 1 })]),
         (str "global.anthropic.claude-opus-4-5-20251101-v1",
          [(str "default", { input_per_1k := 2, output_per_1k := 2 })])]
        (str "arn:aws:bedrock:us-east-2:123:inference-profile/global.anthropic.claude-opus-4-5-20251101-v1:0")
        (str "us-east-2") =
        some { input_per_1k := 2, output_per_1k := 2 }) := by
  have e1 := BedrockParser.normalize_model_id_arn sc1 reg acct rest h1 hreg
    hregc hacct hacctc hrest hrestn
  have e2 := BedrockParser.normalize_model_id_arn sc2 reg acct rest h2 hreg
    hregc hacct hacctc hrest hrestn
  have p1 := get_pricing_model_key_arn sc1 reg acct rest h1 hregs haccts
  have p2 := get_pricing_model_key_arn sc2 reg acct rest h2 hregs haccts
  have hd1 : '.' ∉ sc1 := (BedrockParser.scopeMarker_chars sc1 h1).2.2.1
  have hd2 : '.' ∉ sc2 := (BedrockParser.scopeMarker_chars sc2 h2).2.2.1
  refine ⟨e1, ?_, ?_, by decide, by decide⟩
  · rw [e1, e2]
    intro heq
    exact hne (BedrockParser.dot_marker_inj _ _ _ _ hd1 hd2 heq)
  · rw [p1, p2]
    intro heq
    exact hne (BedrockParser.dot_marker_inj _ _ _ _ hd1 hd2 heq)

/-- Witness for C5: the `us.` and `global.` forms of the same profile ARN
normalize to different keys and derive different pricing keys. -/
theorem C5_scope_preserved_keys_differ_witness :
    BedrockParser.normalize_model_id
        (BedrockParser.profileArn (str "us") (str "us-east-2") (str "123")
          (str "anthropic.claude-opus-4-5-20251101-v1:0")) ≠
      BedrockParser.normalize_model_id
        (BedrockParser.profileArn (str "global") (str "us-east-2") (str "123")
          (str "anthropic.claude-opus-4-5-20251101-v1:0")) ∧
    get_pricing_model_key
        (BedrockParser.profileArn (str "us") (str "us-east-2") (str "123")
          (str "anthropic.claude-opus-4-5-20251101-v1:0")) ≠
      get_pricing_model_key
        (BedrockParser.profileArn (str "global") (str "us-east-2") (str "123")
          (str "anthropic.claude-opus-4-5-20251101-v1:0")) := by
  have h := C5_scope_preserved_keys_differ (str "us") (str "global")
    (str "us-east-2") (str "123") (str "anthropic.claude-opus-4-5-20251101-v1:0")
    (by decide) (by decide) (by decide) (by decide) (by decide) (by decide)
    (by decide) (by decide) (by decide) (by decide) (by decide)
  exact ⟨h.2.1, h.2.2.1⟩

end Claims

section Sanity

example : str "ab" = ['a', 'b'] := by decide

example : Assoc.alookup (str "x") [(str "x", (1 : Int))] = some 1 := by decide

example : Int.fdiv (-7) 2 = -4 := by decide

example : ((-7 : Int) % 3600) = 3593 := by decide

example : Calendar.toEpochDays 1970 1 1 = 0 := by decide

example : Calendar.toEpochDays 2026 2 1 = 20485 := by decide

example : Calendar.fromEpochDays 20485 = (2026, 2, 1) := by decide

example : Datehour.parseDatehour (str "2026-02-01T08") =
    some (20485 * 86400 + 8 * 3600) := by decide

example : Datehour.parseDatehour (str "2026-02-30T08") = none := by decide

example : Datehour.parseDatehour (str "2026-02-01T24") = none := by decide

example : Datehour.parseDatehour (str "2026-02-01") = none := by decide

example : Datehour.parseDatehour (str "202-02-01T05") = none := by decide

example : Datehour.parseDatehour (str "02026-02-01T05") = none := by decide

example : Datehour.parseDatehour (str "2026-02- 5T08") =
    some (20489 * 86400 + 8 * 3600) := by decide

example : Datehour.parseDatehour (str "2026-02-01t08") =
    some (20485 * 86400 + 8 * 3600) := by decide

example : Datehour.formatDatehour (20485 * 86400 + 8 * 3600) =
    str "2026-02-01T08" := by decide

example : Datehour.formatDatehour
    (Calendar.toEpochDays 500 6 15 * 86400 + 23 * 3600) =
    str "500-06-15T23" := by decide

example : BedrockParser.normalize_model_id
    (str "arn:aws:bedrock:us-east-2:123:inference-profile/us.anthropic.claude-opus-4-5-20251101-v1:0") =
    str "us.anthropic.claude-opus-4-5-20251101-v1" := by decide

example : BedrockParser.normalize_model_id
    (str "anthropic.claude-3-haiku-20240307-v1:0") =
    str "anthropic.claude-3-haiku-20240307-v1" := by decide

example : Pricing.get_pricing_model_key
    (str "arn:aws:bedrock:us-east-2:123:inference-profile/global.anthropic.claude-3-5-sonnet-20241022-v2:0") =
    str "global.anthropic.claude-3-5-sonnet-20241022-v2" := by decide

example : Pricing.get_pricing_model_key
    (str "anthropic.claude-opus-4-5-20251101-v1:0") =
    str "anthropic.claude-opus-4-5-20251101-v1" := by decide

example : Pricing.get_pricing_model_key
    (str "arn:aws:bedrock:us-east-1::foundation-model/amazon.titan-text-express-v1") =
    str "amazon.titan-text-express-v1" := by decide

example :
    (Workflow.plan_scan false {} (20485 * 86400) (20486 * 86400)
      (20485 * 86400 + 8 * 3600 + 1800)).scan_end_datehour =
    some (str "2026-02-01T08") := by decide

example :
    (Workflow.plan_scan false {} (20485 * 86400) (20486 * 86400)
      (20485 * 86400 + 8 * 3600 + 1800)).scan_hours.length = 24 := by decide

end Sanity
